import Mathlib

/-!
# SandBox-Ebitengine: falling-sand cellular automaton

A shallow embedding of `main.go`: the cell grid, `placePixels`, `updatePhysics`
and the physics timing of `Update`, followed by the properties proved about them.

Modelling conventions.

* The grid `[CellsX][CellsY]CellType` is a function from integer coordinates to
  cells together with its two dimensions.  Only coordinates inside
  `[0,W) x [0,H)` are cells of the array; an index outside that range makes a
  read or a write fail (`none`), which is Go's index panic.
* The dimensions are arguments `W H` of every operation; the program runs them at
  `CellsX = 200` and `CellsY = 150`.
* `rand.Intn(2)` is the process-wide random source: a sequence `rnd` of raw
  values and the number of draws made so far; the n-th draw returns `rnd n % 2`.
* Go's `int` is 64 bits wide.  `placePixels` receives arbitrary integers, so its
  additions wrap (`wrap64`), and so does the increment of `physicsTick`; the
  indices of `updatePhysics` stay within one of the grid dimensions and are
  computed exactly.
-/

namespace SandBox

/-! ## Data model -/

/-- Cell materials, the constants `Empty`, `Sand`, `Water`, `Stone` of the source. -/
inductive CellType where
  | Empty
  | Sand
  | Water
  | Stone
  deriving DecidableEq

open CellType

def WindowWidth : Nat := 800

def WindowHeight : Nat := 600

def CellSize : Nat := 4

def CellsX : Nat := WindowWidth / CellSize

def CellsY : Nat := WindowHeight / CellSize

def PhysicsFPS : Nat := 50

/-- Contents of the array `cells`, indexed `cells x y` like `g.cells[x][y]`. -/
abbrev Cells := Int → Int → CellType

/-- The struct `Game` of the source. -/
structure Game where
  cells : Cells
  actualChoice : CellType
  physicsTick : Int

/-- The part of the program state that `updatePhysics` touches: the grid and the
number of draws taken from the random source so far. -/
structure World where
  cells : Cells
  draws : Nat

/-- The grid allocated at start-up: every cell is the zero value `Empty`. -/
def emptyCells : Cells := fun _ _ => Empty

/-! ## Array access -/

/-- Index check of the array: `0 <= x < W` and `0 <= y < H`. -/
def inBounds (W H : Nat) (x y : Int) : Bool :=
  decide (0 ≤ x) && decide (x < (W : Int)) && decide (0 ≤ y) && decide (y < (H : Int))

/-- Read of `g.cells[x][y]`; an index out of range fails. -/
def readCell (W H : Nat) (c : Cells) (x y : Int) : Option CellType :=
  if inBounds W H x y then some (c x y) else none

/-- The grid with cell `(x,y)` replaced by `v`. -/
def setCell (c : Cells) (x y : Int) (v : CellType) : Cells :=
  fun a b => if a = x ∧ b = y then v else c a b

/-- Assignment `g.cells[x][y] = v`; an index out of range fails. -/
def writeCell (W H : Nat) (c : Cells) (x y : Int) (v : CellType) : Option Cells :=
  if inBounds W H x y then some (setCell c x y v) else none

/-- Test `g.cells[x][y] == Empty`. -/
def isEmptyAt (W H : Nat) (c : Cells) (x y : Int) : Option Bool :=
  (readCell W H c x y).map (fun v => decide (v = CellType.Empty))

/-- Go's short-circuit `b && e`: `e` is evaluated only when `b` holds. -/
def andAlso (b : Bool) (e : Option Bool) : Option Bool :=
  if b then e else some false

/-- The values taken by the loop variable of `for v := lo; v < hi; v++`. -/
def loopVals (lo hi : Int) : List Int :=
  (List.range (hi - lo).toNat).map (fun (i : Nat) => lo + (i : Int))

/-! ## placePixels -/

/-- Two's-complement wrap-around of a 64-bit signed addition result. -/
def wrap64 (z : Int) : Int :=
  (z + 9223372036854775808) % 18446744073709551616 - 9223372036854775808

/-- The value is a Go `int`. -/
def isInt64 (z : Int) : Prop :=
  -9223372036854775808 ≤ z ∧ z < 9223372036854775808

/-- Body of the inner loop of `placePixels`: the guarded assignment. -/
def placeAt (W H : Nat) (cx cy : Int) (cellType : CellType) (x : Int) (c : Cells) (y : Int) :
    Option Cells :=
  let tx := wrap64 (cx + x)
  let ty := wrap64 (cy + y)
  if decide (tx ≥ 0) && decide (tx < (W : Int)) && decide (ty ≥ 0) && decide (ty < (H : Int)) then
    writeCell W H c tx ty cellType
  else
    some c

/-- The function `placePixels(cx, cy, size, cellType)`. -/
def placePixels (W H : Nat) (c : Cells) (cx cy size : Int) (cellType : CellType) :
    Option Cells :=
  let half := Int.tdiv size 2
  (loopVals (-half) half).foldlM
    (fun c1 x => (loopVals (-half) half).foldlM (placeAt W H cx cy cellType x) c1) c

/-! ## updatePhysics -/

/-- Body of the double loop of `updatePhysics` for the cell `(x,y)`.  Every
array access goes through `readCell` or `writeCell`, so an index out of range makes
the body fail.  The source tests `g.cells[x][y+1]` up to three times in a row with
no write in between; here it is read once, as `below`.  The draw `rand.Intn(2)` is
taken only in the three branches where both sides are free. -/
def stepCell (W H : Nat) (rnd : Nat → Nat) (s : World) (x y : Int) : Option World := do
  let cell ← readCell W H s.cells x y
  if cell = Sand then
    if y + 1 < (H : Int) then
      let below ← readCell W H s.cells x (y + 1)
      if below = CellType.Empty then
        let c1 ← writeCell W H s.cells x (y + 1) Sand
        let c2 ← writeCell W H c1 x y Empty
        pure { s with cells := c2 }
      else if below = Water then
        let c1 ← writeCell W H s.cells x (y + 1) Sand
        let c2 ← writeCell W H c1 x y Water
        pure { s with cells := c2 }
      else if below ≠ Stone then
        let left ← andAlso (decide (x - 1 ≥ 0)) (isEmptyAt W H s.cells (x - 1) (y + 1))
        let right ← andAlso (decide (x + 1 < (W : Int))) (isEmptyAt W H s.cells (x + 1) (y + 1))
        if left && right then
          let dir : Int := if rnd s.draws % 2 = 0 then 1 else -1
          let c1 ← writeCell W H s.cells (x + dir) (y + 1) Sand
          let c2 ← writeCell W H c1 x y Empty
          pure { cells := c2, draws := s.draws + 1 }
        else if left then
          let c1 ← writeCell W H s.cells (x - 1) (y + 1) Sand
          let c2 ← writeCell W H c1 x y Empty
          pure { s with cells := c2 }
        else if right then
          let c1 ← writeCell W H s.cells (x + 1) (y + 1) Sand
          let c2 ← writeCell W H c1 x y Empty
          pure { s with cells := c2 }
        else
          pure s
      else
        pure s
    else
      pure s
  else if cell = Water then
    let free ← andAlso (decide (y + 1 < (H : Int))) (isEmptyAt W H s.cells x (y + 1))
    if free then
      let c1 ← writeCell W H s.cells x (y + 1) Water
      let c2 ← writeCell W H c1 x y Empty
      pure { s with cells := c2 }
    else
      let left ← andAlso (decide (x - 1 ≥ 0) && decide (y + 1 < (H : Int)))
        (isEmptyAt W H s.cells (x - 1) (y + 1))
      let right ← andAlso (decide (x + 1 < (W : Int)) && decide (y + 1 < (H : Int)))
        (isEmptyAt W H s.cells (x + 1) (y + 1))
      if left && right then
        let dir : Int := if rnd s.draws % 2 = 0 then 1 else -1
        let c1 ← writeCell W H s.cells (x + dir) (y + 1) Water
        let c2 ← writeCell W H c1 x y Empty
        pure { cells := c2, draws := s.draws + 1 }
      else if left then
        let c1 ← writeCell W H s.cells (x - 1) (y + 1) Water
        let c2 ← writeCell W H c1 x y Empty
        pure { s with cells := c2 }
      else if right then
        let c1 ← writeCell W H s.cells (x + 1) (y + 1) Water
        let c2 ← writeCell W H c1 x y Empty
        pure { s with cells := c2 }
      else
        let leftH ← andAlso (decide (x - 1 ≥ 0)) (isEmptyAt W H s.cells (x - 1) y)
        let rightH ← andAlso (decide (x + 1 < (W : Int))) (isEmptyAt W H s.cells (x + 1) y)
        if leftH && rightH then
          let dir : Int := if rnd s.draws % 2 = 0 then 1 else -1
          let c1 ← writeCell W H s.cells (x + dir) y Water
          let c2 ← writeCell W H c1 x y Empty
          pure { cells := c2, draws := s.draws + 1 }
        else if leftH then
          let c1 ← writeCell W H s.cells (x - 1) y Water
          let c2 ← writeCell W H c1 x y Empty
          pure { s with cells := c2 }
        else if rightH then
          let c1 ← writeCell W H s.cells (x + 1) y Water
          let c2 ← writeCell W H c1 x y Empty
          pure { s with cells := c2 }
        else
          pure s
  else
    pure s

/-- Inner loop of `updatePhysics`: the row `y`, columns left to right. -/
def updateRow (W H : Nat) (rnd : Nat → Nat) (s : World) (y : Int) : Option World :=
  (loopVals 0 W).foldlM (fun s1 x => stepCell W H rnd s1 x y) s

/-- The function `updatePhysics`: rows from `H - 1` down to `0`. -/
def updatePhysics (W H : Nat) (rnd : Nat → Nat) (s : World) : Option World :=
  (loopVals 0 H).reverse.foldlM (updateRow W H rnd) s

/-- The result of `n` successive calls of `updatePhysics`. -/
def runPhysics (W H : Nat) (rnd : Nat → Nat) : Nat → World → Option World
  | 0, s => some s
  | n + 1, s => (updatePhysics W H rnd s).bind (runPhysics W H rnd n)
/-! ## Specification vocabulary -/

/-- The grid with the contents of `(x,y)` and `(tx,ty)` exchanged. -/
def swapCells (c : Cells) (x y tx ty : Int) : Cells :=
  fun a b => if a = x ∧ b = y then c tx ty else if a = tx ∧ b = ty then c x y else c a b

/-- A move the loop body can make from `(x,y)`: the target `(tx,ty)` is a
neighbouring cell of the grid, one row down or in the same row, and holds what the
rule of the material at `(x,y)` asks for. -/
def Moves (W H : Nat) (c : Cells) (x y tx ty : Int) : Prop :=
  inBounds W H tx ty = true ∧ (x - 1 ≤ tx ∧ tx ≤ x + 1) ∧ (y ≤ ty ∧ ty ≤ y + 1) ∧
    (tx ≠ x ∨ ty ≠ y) ∧
    ((c x y = Sand ∧ ty = y + 1 ∧
        ((tx = x ∧ (c tx ty = CellType.Empty ∨ c tx ty = Water)) ∨
          (tx ≠ x ∧ c tx ty = CellType.Empty ∧ c x (y + 1) = Sand))) ∨
      (c x y = Water ∧ c tx ty = CellType.Empty))

/-- What one execution of the loop body may do: nothing, or exchange the cell
`(x,y)` with the target of a move, taking at most one draw. -/
def StepSpec (W H : Nat) (s : World) (x y : Int) (r : Option World) : Prop :=
  r = some s ∨
  ∃ tx ty d, Moves W H s.cells x y tx ty ∧ (d = s.draws ∨ d = s.draws + 1) ∧
    r = some (World.mk (swapCells s.cells x y tx ty) d)


/-- Number of cells of the grid whose material satisfies `p`. -/
def countWhere (W H : Nat) (p : CellType → Bool) (c : Cells) : Nat :=
  ∑ x in Finset.range W, ∑ y in Finset.range H, if p (c x y) = true then 1 else 0

/-- Number of non-Empty cells of the grid. -/
def countNonEmpty (W H : Nat) (c : Cells) : Nat :=
  countWhere W H (fun v => decide (v ≠ CellType.Empty)) c

/-- Every cell of the grid is Empty except `(x,y)`, which holds `m`. -/
def OnlyAt (W H : Nat) (c : Cells) (x y : Int) (m : CellType) : Prop :=
  ∀ a b : Int, inBounds W H a b = true → c a b = if a = x ∧ b = y then m else CellType.Empty

/-! ## Update -/

/-- What `Update` reads from the window system during one frame: the four
`IsKeyJustPressed` answers, `IsMouseButtonPressed` and `CursorPosition`. -/
structure Input where
  key1 : Bool
  key2 : Bool
  key3 : Bool
  key0 : Bool
  mouseLeft : Bool
  mx : Int
  my : Int

/-- The material selection at the head of `Update`. -/
def selectChoice (inp : Input) (current : CellType) : CellType :=
  if inp.key1 then Sand
  else if inp.key2 then Water
  else if inp.key3 then Stone
  else if inp.key0 then CellType.Empty
  else current

/-- The physics timing of `Update`: `physicsTick++`, a 64-bit increment that wraps,
then the test `physicsTick >= 60 / PhysicsFPS`.  Returns the counter left behind and
whether `updatePhysics` is invoked. -/
def physicsTiming (physicsTick : Int) : Int × Bool :=
  let t := wrap64 (physicsTick + 1)
  if t ≥ Int.tdiv 60 (PhysicsFPS : Int) then (0, true) else (t, false)

/-- The method `Update` for one frame.  The result carries the game, the number
of draws made so far and whether this frame invoked `updatePhysics`. -/
def Update (W H : Nat) (rnd : Nat → Nat) (inp : Input) (g : Game) (draws : Nat) :
    Option (Game × Nat × Bool) := do
  let choice := selectChoice inp g.actualChoice
  let cells ← if inp.mouseLeft then
      placePixels W H g.cells (Int.tdiv inp.mx (CellSize : Int)) (Int.tdiv inp.my (CellSize : Int))
        4 choice
    else pure g.cells
  let timing := physicsTiming g.physicsTick
  if timing.2 then
    let w ← updatePhysics W H rnd { cells := cells, draws := draws }
    pure ({ cells := w.cells, actualChoice := choice, physicsTick := timing.1 }, w.draws, true)
  else
    pure ({ cells := cells, actualChoice := choice, physicsTick := timing.1 }, draws, false)

/-- Successive frames: `Update` once per input; the last component counts the
invocations of `updatePhysics`. -/
def runUpdates (W H : Nat) (rnd : Nat → Nat) :
    List Input → Game → Nat → Option (Game × Nat × Nat)
  | [], g, draws => some (g, draws, 0)
  | inp :: rest, g, draws =>
    (Update W H rnd inp g draws).bind fun r =>
      (runUpdates W H rnd rest r.1 r.2.1).map fun q =>
        (q.1, q.2.1, q.2.2 + (if r.2.2 then 1 else 0))

/-- A grid of the program's size: Water at `(0,148)` over Stone at `(0,149)` and
`(1,149)`, every other cell Empty. -/
def flowGrid : Cells :=
  setCell (setCell (setCell emptyCells 0 148 Water) 0 149 Stone) 1 149 Stone

/-- The 10 x 10 grid with Sand on `(2..7, 9)` and on `(4,8)`, `(5,8)`, Empty elsewhere. -/
def sandPile : Cells :=
  fun x y => if (y = 9 ∧ 2 ≤ x ∧ x ≤ 7) ∨ (y = 8 ∧ 4 ≤ x ∧ x ≤ 5) then Sand else CellType.Empty

/-- The two grids hold the same material in every cell of the array. -/
def sameCells (W H : Nat) (c d : Cells) : Bool :=
  (loopVals 0 W).all fun x => (loopVals 0 H).all fun y => decide (c x y = d x y)

/-- Number of cells of the grid that hold the material `m`. -/
def countOf (W H : Nat) (m : CellType) (c : Cells) : Nat :=
  countWhere W H (fun v => decide (v = m)) c

/-- Sum of the row index `y` over the cells of the grid that hold `m`. -/
def sumRows (W H : Nat) (m : CellType) (c : Cells) : Nat :=
  ∑ x in Finset.range W, ∑ y in Finset.range H, if c x y = m then y else 0

/-- The gravity potential `2 * (sum of y over Sand) + (sum of y over Water)`. -/
def potential (W H : Nat) (c : Cells) : Nat :=
  2 * sumRows W H Sand c + sumRows W H Water c

/-- The cell `(a,b)` holds Sand in the grid `c`, or one of the three cells of the
grid in the row above it, `(a,b-1)`, `(a-1,b-1)`, `(a+1,b-1)`, does. -/
def SandFrom (W H : Nat) (c : Cells) (a b : Int) : Prop :=
  c a b = Sand ∨
  (inBounds W H a (b - 1) = true ∧ c a (b - 1) = Sand) ∨
  (inBounds W H (a - 1) (b - 1) = true ∧ c (a - 1) (b - 1) = Sand) ∨
  (inBounds W H (a + 1) (b - 1) = true ∧ c (a + 1) (b - 1) = Sand)

/-! ## The loop body of updatePhysics, case by case -/

theorem inBounds_iff (W H : Nat) (x y : Int) :
    inBounds W H x y = true ↔ (0 ≤ x ∧ x < (W : Int)) ∧ (0 ≤ y ∧ y < (H : Int)) := by
  simp [inBounds, and_assoc]

theorem setCell_setCell_eq_swap (c : Cells) (x y tx ty : Int) :
    setCell (setCell c tx ty (c x y)) x y (c tx ty) = swapCells c x y tx ty := by
  funext a b
  simp only [setCell, swapCells]

theorem move_ok (W H : Nat) (c : Cells) (x y tx ty : Int) (v w : CellType) (d : Nat)
    (hb : inBounds W H x y = true) (hb2 : inBounds W H tx ty = true)
    (hv : c x y = v) (hw : c tx ty = w) :
    (writeCell W H c tx ty v).bind (fun c1 => (writeCell W H c1 x y w).bind
      (fun c2 => some (World.mk c2 d))) = some (World.mk (swapCells c x y tx ty) d) := by
  subst hv; subst hw
  simp only [writeCell, hb, hb2, if_true, Option.some_bind]
  congr 2

theorem andAlso_isEmptyAt (W H : Nat) (c : Cells) (x y : Int) (b : Bool)
    (h : b = true → inBounds W H x y = true) :
    andAlso b (isEmptyAt W H c x y) = some (b && decide (c x y = CellType.Empty)) := by
  cases b with
  | false => rfl
  | true => simp [andAlso, isEmptyAt, readCell, h rfl]

theorem stepSpec_move (W H : Nat) (s : World) (x y tx ty : Int) (v w : CellType) (d : Nat)
    (hb : inBounds W H x y = true) (hb2 : inBounds W H tx ty = true)
    (hx : x - 1 ≤ tx ∧ tx ≤ x + 1) (hy : y ≤ ty ∧ ty ≤ y + 1) (hne : tx ≠ x ∨ ty ≠ y)
    (hv : s.cells x y = v) (hw : s.cells tx ty = w)
    (hk : (v = Sand ∧ ty = y + 1 ∧
        ((tx = x ∧ (w = CellType.Empty ∨ w = Water)) ∨
          (tx ≠ x ∧ w = CellType.Empty ∧ s.cells x (y + 1) = Sand))) ∨
      (v = Water ∧ w = CellType.Empty))
    (hd : d = s.draws ∨ d = s.draws + 1) :
    StepSpec W H s x y ((writeCell W H s.cells tx ty v).bind (fun c1 =>
      (writeCell W H c1 x y w).bind (fun c2 => some (World.mk c2 d)))) := by
  refine Or.inr ⟨tx, ty, d, ⟨hb2, hx, hy, hne, ?_⟩, hd,
    move_ok W H s.cells x y tx ty v w d hb hb2 hv hw⟩
  rw [hv, hw]
  exact hk

theorem stepCell_sand (W H : Nat) (rnd : Nat → Nat) (s : World) (x y : Int)
    (hb : inBounds W H x y = true) (hc : s.cells x y = Sand) :
    StepSpec W H s x y (stepCell W H rnd s x y) := by
  have hxy := (inBounds_iff W H x y).1 hb
  unfold stepCell
  simp only [readCell, hb, if_true, Option.bind_eq_bind, Option.some_bind, Option.pure_def, hc]
  by_cases hy : y + 1 < (H : Int)
  · have hb1 : inBounds W H x (y + 1) = true := (inBounds_iff W H x (y + 1)).2 ⟨hxy.1, by omega, hy⟩
    simp only [hy, if_true, hb1, Option.some_bind]
    rcases hbl : s.cells x (y + 1) with _ | _ | _ | _
    · simp only [if_true]
      exact stepSpec_move W H s x y x (y + 1) Sand CellType.Empty s.draws hb hb1 (by omega)
        (by omega) (Or.inr (by omega)) hc hbl (Or.inl ⟨rfl, rfl, Or.inl ⟨rfl, Or.inl rfl⟩⟩) (Or.inl rfl)
    · simp only [reduceCtorEq, if_false, if_true, ne_eq, not_false_eq_true]
      have hl : decide (x - 1 ≥ 0) = true → inBounds W H (x - 1) (y + 1) = true := by
        intro h
        have h1 := of_decide_eq_true h
        exact (inBounds_iff W H (x - 1) (y + 1)).2 ⟨⟨by omega, by omega⟩, by omega, hy⟩
      have hr : decide (x + 1 < (W : Int)) = true → inBounds W H (x + 1) (y + 1) = true := by
        intro h
        have h1 := of_decide_eq_true h
        exact (inBounds_iff W H (x + 1) (y + 1)).2 ⟨⟨by omega, by omega⟩, by omega, hy⟩
      rw [andAlso_isEmptyAt W H s.cells (x - 1) (y + 1) _ hl,
        andAlso_isEmptyAt W H s.cells (x + 1) (y + 1) _ hr]
      simp only [Option.some_bind]
      cases hL : (decide (x - 1 ≥ 0) && decide (s.cells (x - 1) (y + 1) = CellType.Empty)) <;>
        cases hR : (decide (x + 1 < (W : Int)) &&
          decide (s.cells (x + 1) (y + 1) = CellType.Empty)) <;>
        simp only [Bool.and_false, Bool.and_true, Bool.false_eq_true, if_false, if_true,
          Bool.and_self]
      · exact Or.inl rfl
      · have hR1 := Bool.and_eq_true_iff.1 hR
        exact stepSpec_move W H s x y (x + 1) (y + 1) Sand CellType.Empty s.draws hb
          (hr hR1.1) (by omega) (by omega) (Or.inl (by omega)) hc (of_decide_eq_true hR1.2)
          (Or.inl ⟨rfl, rfl, Or.inr ⟨by omega, rfl, hbl⟩⟩) (Or.inl rfl)
      · have hL1 := Bool.and_eq_true_iff.1 hL
        exact stepSpec_move W H s x y (x - 1) (y + 1) Sand CellType.Empty s.draws hb
          (hl hL1.1) (by omega) (by omega) (Or.inl (by omega)) hc (of_decide_eq_true hL1.2)
          (Or.inl ⟨rfl, rfl, Or.inr ⟨by omega, rfl, hbl⟩⟩) (Or.inl rfl)
      · have hL1 := Bool.and_eq_true_iff.1 hL
        have hR1 := Bool.and_eq_true_iff.1 hR
        by_cases hd : rnd s.draws % 2 = 0
        · simp only [hd, if_true]
          exact stepSpec_move W H s x y (x + 1) (y + 1) Sand CellType.Empty (s.draws + 1) hb
            (hr hR1.1) (by omega) (by omega) (Or.inl (by omega)) hc (of_decide_eq_true hR1.2)
            (Or.inl ⟨rfl, rfl, Or.inr ⟨by omega, rfl, hbl⟩⟩) (Or.inr rfl)
        · simp only [hd, if_false]
          exact stepSpec_move W H s x y (x - 1) (y + 1) Sand CellType.Empty (s.draws + 1) hb
            (hl hL1.1) (by omega) (by omega) (Or.inl (by omega)) hc (of_decide_eq_true hL1.2)
            (Or.inl ⟨rfl, rfl, Or.inr ⟨by omega, rfl, hbl⟩⟩) (Or.inr rfl)
    · simp only [reduceCtorEq, if_false, if_true]
      exact stepSpec_move W H s x y x (y + 1) Sand Water s.draws hb hb1 (by omega)
        (by omega) (Or.inr (by omega)) hc hbl (Or.inl ⟨rfl, rfl, Or.inl ⟨rfl, Or.inr rfl⟩⟩) (Or.inl rfl)
    · simp only [reduceCtorEq, if_false, if_true, ne_eq, not_true_eq_false]
      exact Or.inl rfl
  · simp only [hy, if_false]
    exact Or.inl rfl

theorem stepCell_water (W H : Nat) (rnd : Nat → Nat) (s : World) (x y : Int)
    (hb : inBounds W H x y = true) (hc : s.cells x y = Water) :
    StepSpec W H s x y (stepCell W H rnd s x y) := by
  have hxy := (inBounds_iff W H x y).1 hb
  unfold stepCell
  simp only [readCell, hb, if_true, Option.bind_eq_bind, Option.some_bind, Option.pure_def, hc,
    reduceCtorEq, if_false]
  have hf : decide (y + 1 < (H : Int)) = true → inBounds W H x (y + 1) = true := by
    intro h
    have h1 := of_decide_eq_true h
    exact (inBounds_iff W H x (y + 1)).2 ⟨hxy.1, by omega, h1⟩
  have hl : (decide (x - 1 ≥ 0) && decide (y + 1 < (H : Int))) = true →
      inBounds W H (x - 1) (y + 1) = true := by
    intro h
    have h1 := Bool.and_eq_true_iff.1 h
    have h2 := of_decide_eq_true h1.1
    have h3 := of_decide_eq_true h1.2
    exact (inBounds_iff W H (x - 1) (y + 1)).2 ⟨⟨by omega, by omega⟩, by omega, h3⟩
  have hr : (decide (x + 1 < (W : Int)) && decide (y + 1 < (H : Int))) = true →
      inBounds W H (x + 1) (y + 1) = true := by
    intro h
    have h1 := Bool.and_eq_true_iff.1 h
    have h2 := of_decide_eq_true h1.1
    have h3 := of_decide_eq_true h1.2
    exact (inBounds_iff W H (x + 1) (y + 1)).2 ⟨⟨by omega, by omega⟩, by omega, h3⟩
  have hlh : decide (x - 1 ≥ 0) = true → inBounds W H (x - 1) y = true := by
    intro h
    have h1 := of_decide_eq_true h
    exact (inBounds_iff W H (x - 1) y).2 ⟨⟨by omega, by omega⟩, hxy.2⟩
  have hrh : decide (x + 1 < (W : Int)) = true → inBounds W H (x + 1) y = true := by
    intro h
    have h1 := of_decide_eq_true h
    exact (inBounds_iff W H (x + 1) y).2 ⟨⟨by omega, by omega⟩, hxy.2⟩
  rw [andAlso_isEmptyAt W H s.cells x (y + 1) _ hf,
    andAlso_isEmptyAt W H s.cells (x - 1) (y + 1) _ hl,
    andAlso_isEmptyAt W H s.cells (x + 1) (y + 1) _ hr,
    andAlso_isEmptyAt W H s.cells (x - 1) y _ hlh,
    andAlso_isEmptyAt W H s.cells (x + 1) y _ hrh]
  simp only [Option.some_bind]
  cases hF : (decide (y + 1 < (H : Int)) && decide (s.cells x (y + 1) = CellType.Empty))
  swap
  · have hF1 := Bool.and_eq_true_iff.1 hF
    simp only [if_true]
    exact stepSpec_move W H s x y x (y + 1) Water CellType.Empty s.draws hb (hf hF1.1)
      (by omega) (by omega) (Or.inr (by omega)) hc (of_decide_eq_true hF1.2)
      (Or.inr ⟨rfl, rfl⟩) (Or.inl rfl)
  simp only [Bool.false_eq_true, if_false]
  cases hL : ((decide (x - 1 ≥ 0) && decide (y + 1 < (H : Int))) &&
      decide (s.cells (x - 1) (y + 1) = CellType.Empty)) <;>
    cases hR : ((decide (x + 1 < (W : Int)) && decide (y + 1 < (H : Int))) &&
      decide (s.cells (x + 1) (y + 1) = CellType.Empty)) <;>
    simp only [Bool.and_false, Bool.and_true, Bool.false_eq_true, if_false, if_true,
      Bool.and_self]
  · cases hLH : (decide (x - 1 ≥ 0) && decide (s.cells (x - 1) y = CellType.Empty)) <;>
      cases hRH : (decide (x + 1 < (W : Int)) && decide (s.cells (x + 1) y = CellType.Empty)) <;>
      simp only [Bool.and_false, Bool.and_true, Bool.false_eq_true, if_false, if_true,
        Bool.and_self]
    · exact Or.inl rfl
    · have hR1 := Bool.and_eq_true_iff.1 hRH
      exact stepSpec_move W H s x y (x + 1) y Water CellType.Empty s.draws hb
        (hrh hR1.1) (by omega) (by omega) (Or.inl (by omega)) hc (of_decide_eq_true hR1.2)
        (Or.inr ⟨rfl, rfl⟩) (Or.inl rfl)
    · have hL1 := Bool.and_eq_true_iff.1 hLH
      exact stepSpec_move W H s x y (x - 1) y Water CellType.Empty s.draws hb
        (hlh hL1.1) (by omega) (by omega) (Or.inl (by omega)) hc (of_decide_eq_true hL1.2)
        (Or.inr ⟨rfl, rfl⟩) (Or.inl rfl)
    · have hL1 := Bool.and_eq_true_iff.1 hLH
      have hR1 := Bool.and_eq_true_iff.1 hRH
      by_cases hd : rnd s.draws % 2 = 0
      · simp only [hd, if_true]
        exact stepSpec_move W H s x y (x + 1) y Water CellType.Empty (s.draws + 1) hb
          (hrh hR1.1) (by omega) (by omega) (Or.inl (by omega)) hc (of_decide_eq_true hR1.2)
          (Or.inr ⟨rfl, rfl⟩) (Or.inr rfl)
      · simp only [hd, if_false]
        exact stepSpec_move W H s x y (x - 1) y Water CellType.Empty (s.draws + 1) hb
          (hlh hL1.1) (by omega) (by omega) (Or.inl (by omega)) hc (of_decide_eq_true hL1.2)
          (Or.inr ⟨rfl, rfl⟩) (Or.inr rfl)
  · have hR1 := Bool.and_eq_true_iff.1 hR
    exact stepSpec_move W H s x y (x + 1) (y + 1) Water CellType.Empty s.draws hb
      (hr hR1.1) (by omega) (by omega) (Or.inl (by omega)) hc (of_decide_eq_true hR1.2)
      (Or.inr ⟨rfl, rfl⟩) (Or.inl rfl)
  · have hL1 := Bool.and_eq_true_iff.1 hL
    exact stepSpec_move W H s x y (x - 1) (y + 1) Water CellType.Empty s.draws hb
      (hl hL1.1) (by omega) (by omega) (Or.inl (by omega)) hc (of_decide_eq_true hL1.2)
      (Or.inr ⟨rfl, rfl⟩) (Or.inl rfl)
  · have hL1 := Bool.and_eq_true_iff.1 hL
    have hR1 := Bool.and_eq_true_iff.1 hR
    by_cases hd : rnd s.draws % 2 = 0
    · simp only [hd, if_true]
      exact stepSpec_move W H s x y (x + 1) (y + 1) Water CellType.Empty (s.draws + 1) hb
        (hr hR1.1) (by omega) (by omega) (Or.inl (by omega)) hc (of_decide_eq_true hR1.2)
        (Or.inr ⟨rfl, rfl⟩) (Or.inr rfl)
    · simp only [hd, if_false]
      exact stepSpec_move W H s x y (x - 1) (y + 1) Water CellType.Empty (s.draws + 1) hb
        (hl hL1.1) (by omega) (by omega) (Or.inl (by omega)) hc (of_decide_eq_true hL1.2)
        (Or.inr ⟨rfl, rfl⟩) (Or.inr rfl)

theorem stepCell_inert (W H : Nat) (rnd : Nat → Nat) (s : World) (x y : Int)
    (hb : inBounds W H x y = true) (hc : s.cells x y = CellType.Empty ∨ s.cells x y = Stone) :
    stepCell W H rnd s x y = some s := by
  unfold stepCell
  rcases hc with hc | hc <;>
    simp only [readCell, hb, if_true, Option.bind_eq_bind, Option.some_bind, Option.pure_def, hc,
      reduceCtorEq, if_false]

theorem stepCell_spec (W H : Nat) (rnd : Nat → Nat) (s : World) (x y : Int)
    (hb : inBounds W H x y = true) : StepSpec W H s x y (stepCell W H rnd s x y) := by
  rcases hc : s.cells x y with _ | _ | _ | _
  · exact Or.inl (stepCell_inert W H rnd s x y hb (Or.inl hc))
  · exact stepCell_sand W H rnd s x y hb hc
  · exact stepCell_water W H rnd s x y hb hc
  · exact Or.inl (stepCell_inert W H rnd s x y hb (Or.inr hc))

/-! ## Loops -/

theorem mem_loopVals (lo hi v : Int) : v ∈ loopVals lo hi ↔ lo ≤ v ∧ v < hi := by
  simp only [loopVals, List.mem_map, List.mem_range]
  constructor
  · rintro ⟨i, hi1, rfl⟩
    have h2 := Int.lt_toNat.1 hi1
    omega
  · intro h
    refine ⟨(v - lo).toNat, Int.lt_toNat.2 ?_, ?_⟩
    · rw [Int.toNat_of_nonneg (by omega)]
      omega
    · rw [Int.toNat_of_nonneg (by omega)]
      omega

theorem foldlM_inv {α β : Type} (f : β → α → Option β) (P : β → Prop) (Q : α → Prop)
    (hstep : ∀ b a, P b → Q a → ∃ b1, f b a = some b1 ∧ P b1) :
    ∀ (l : List α), (∀ a ∈ l, Q a) → ∀ b, P b → ∃ b1, l.foldlM f b = some b1 ∧ P b1 := by
  intro l
  induction l with
  | nil => intro _ b hb; exact ⟨b, rfl, hb⟩
  | cons a l ih =>
    intro hl b hb
    obtain ⟨b1, h1, hP1⟩ := hstep b a hb (hl a (List.mem_cons_self a l))
    obtain ⟨b2, h2, hP2⟩ := ih (fun c hc => hl c (List.mem_cons_of_mem a hc)) b1 hP1
    refine ⟨b2, ?_, hP2⟩
    rw [List.foldlM_cons, h1]
    exact h2

theorem foldlM_fixed {α β : Type} (f : β → α → Option β) (b : β) :
    ∀ (l : List α), (∀ a ∈ l, f b a = some b) → l.foldlM f b = some b := by
  intro l
  induction l with
  | nil => intro _; rfl
  | cons a l ih =>
    intro hl
    rw [List.foldlM_cons, hl a (List.mem_cons_self a l)]
    exact ih (fun c hc => hl c (List.mem_cons_of_mem a hc))

/-- An invariant kept by every move is kept by the loop body. -/
theorem stepCell_inv (W H : Nat) (rnd : Nat → Nat) (P : World → Prop)
    (hP : ∀ s x y tx ty d, inBounds W H x y = true → Moves W H s.cells x y tx ty →
      (d = s.draws ∨ d = s.draws + 1) → P s → P (World.mk (swapCells s.cells x y tx ty) d))
    (s : World) (x y : Int) (hb : inBounds W H x y = true) (hs : P s) :
    ∃ s1, stepCell W H rnd s x y = some s1 ∧ P s1 := by
  rcases stepCell_spec W H rnd s x y hb with h | ⟨tx, ty, d, hm, hd, h⟩
  · exact ⟨s, h, hs⟩
  · exact ⟨_, h, hP s x y tx ty d hb hm hd hs⟩

/-- An invariant kept by every move is kept by one row pass. -/
theorem updateRow_inv (W H : Nat) (rnd : Nat → Nat) (P : World → Prop)
    (hP : ∀ s x y tx ty d, inBounds W H x y = true → Moves W H s.cells x y tx ty →
      (d = s.draws ∨ d = s.draws + 1) → P s → P (World.mk (swapCells s.cells x y tx ty) d))
    (s : World) (y : Int) (hy : 0 ≤ y ∧ y < (H : Int)) (hs : P s) :
    ∃ s1, updateRow W H rnd s y = some s1 ∧ P s1 := by
  unfold updateRow
  refine foldlM_inv (fun s1 x => stepCell W H rnd s1 x y) P
    (fun x => 0 ≤ x ∧ x < (W : Int)) ?_ (loopVals 0 W) ?_ s hs
  · intro b a hb ha
    exact stepCell_inv W H rnd P hP b a y ((inBounds_iff W H a y).2 ⟨ha, hy⟩) hb
  · intro a ha
    exact (mem_loopVals 0 W a).1 ha

/-- An invariant kept by every move is kept by `updatePhysics`, which returns. -/
theorem updatePhysics_inv (W H : Nat) (rnd : Nat → Nat) (P : World → Prop)
    (hP : ∀ s x y tx ty d, inBounds W H x y = true → Moves W H s.cells x y tx ty →
      (d = s.draws ∨ d = s.draws + 1) → P s → P (World.mk (swapCells s.cells x y tx ty) d))
    (s : World) (hs : P s) :
    ∃ s1, updatePhysics W H rnd s = some s1 ∧ P s1 := by
  unfold updatePhysics
  refine foldlM_inv (updateRow W H rnd) P (fun y => 0 ≤ y ∧ y < (H : Int)) ?_
    (loopVals 0 H).reverse ?_ s hs
  · intro b a hb ha
    exact updateRow_inv W H rnd P hP b a ha hb
  · intro a ha
    exact (mem_loopVals 0 H a).1 (List.mem_reverse.1 ha)

/-- An invariant kept by every move is kept by any number of calls. -/
theorem runPhysics_inv (W H : Nat) (rnd : Nat → Nat) (P : World → Prop)
    (hP : ∀ s x y tx ty d, inBounds W H x y = true → Moves W H s.cells x y tx ty →
      (d = s.draws ∨ d = s.draws + 1) → P s → P (World.mk (swapCells s.cells x y tx ty) d))
    (n : Nat) : ∀ s : World, P s → ∃ s1, runPhysics W H rnd n s = some s1 ∧ P s1 := by
  induction n with
  | zero => intro s hs; exact ⟨s, rfl, hs⟩
  | succ n ih =>
    intro s hs
    obtain ⟨s1, h1, hP1⟩ := updatePhysics_inv W H rnd P hP s hs
    obtain ⟨s2, h2, hP2⟩ := ih s1 hP1
    refine ⟨s2, ?_, hP2⟩
    simp only [runPhysics, h1, Option.some_bind]
    exact h2

/-! ## Counting cells -/

theorem countWhere_swap (W H : Nat) (p : CellType → Bool) (c : Cells) (x y tx ty : Int)
    (hb : inBounds W H x y = true) (hb2 : inBounds W H tx ty = true) :
    countWhere W H p (swapCells c x y tx ty) = countWhere W H p c := by
  obtain ⟨⟨hx0, hx1⟩, hy0, hy1⟩ := (inBounds_iff W H x y).1 hb
  obtain ⟨⟨htx0, htx1⟩, hty0, hty1⟩ := (inBounds_iff W H tx ty).1 hb2
  obtain ⟨i, rfl⟩ := Int.eq_ofNat_of_zero_le hx0
  obtain ⟨j, rfl⟩ := Int.eq_ofNat_of_zero_le hy0
  obtain ⟨k, rfl⟩ := Int.eq_ofNat_of_zero_le htx0
  obtain ⟨l, rfl⟩ := Int.eq_ofNat_of_zero_le hty0
  have hi : i < W := by omega
  have hj : j < H := by omega
  have hk : k < W := by omega
  have hl : l < H := by omega
  unfold countWhere
  rw [← Finset.sum_product', ← Finset.sum_product']
  have key : ∀ q : ℕ × ℕ,
      (if p (swapCells c i j k l q.1 q.2) = true then 1 else 0) =
        (fun r : ℕ × ℕ => if p (c r.1 r.2) = true then 1 else 0)
          (Equiv.swap ((i, j) : ℕ × ℕ) (k, l) q) := by
    rintro ⟨a, b⟩
    simp only [swapCells, Equiv.swap_apply_def, Prod.mk.injEq, Nat.cast_inj]
    by_cases h1 : a = i ∧ b = j
    · simp [h1]
    · by_cases h2 : a = k ∧ b = l
      · obtain ⟨rfl, rfl⟩ := h2
        simp [h1]
      · simp [h1, h2]
  rw [Finset.sum_congr rfl (fun q _ => key q)]
  refine Equiv.Perm.sum_comp (Equiv.swap ((i, j) : ℕ × ℕ) (k, l))
    (Finset.range W ×ˢ Finset.range H)
    (fun r : ℕ × ℕ => if p (c r.1 r.2) = true then 1 else 0) ?_
  intro q hq
  simp only [ne_eq, Set.mem_setOf_eq] at hq
  have hq2 : q = (i, j) ∨ q = (k, l) := by
    by_contra hcon
    push_neg at hcon
    exact hq (Equiv.swap_apply_of_ne_of_ne hcon.1 hcon.2)
  rcases hq2 with rfl | rfl <;> simp [hi, hj, hk, hl]

/-! ## placePixels -/

theorem placeAt_eq (W H : Nat) (cx cy : Int) (m : CellType) (x : Int) (c : Cells) (y : Int) :
    placeAt W H cx cy m x c y =
      some (if inBounds W H (wrap64 (cx + x)) (wrap64 (cy + y)) = true
        then setCell c (wrap64 (cx + x)) (wrap64 (cy + y)) m else c) := by
  unfold placeAt writeCell
  have hg : (decide (wrap64 (cx + x) ≥ 0) && decide (wrap64 (cx + x) < (W : Int)) &&
      decide (wrap64 (cy + y) ≥ 0) && decide (wrap64 (cy + y) < (H : Int))) =
      inBounds W H (wrap64 (cx + x)) (wrap64 (cy + y)) := rfl
  simp only [hg]
  by_cases h : inBounds W H (wrap64 (cx + x)) (wrap64 (cy + y)) = true
  · simp only [h, if_true]
  · simp only [h, if_false]
    rfl

/-- The cells written by one column of the brush. -/
theorem placeColumn_spec (W H : Nat) (cx cy : Int) (m : CellType) (x : Int) :
    ∀ (ys : List Int) (c : Cells), ∃ c1, ys.foldlM (placeAt W H cx cy m x) c = some c1 ∧
      ∀ a b, c1 a b = if (∃ y ∈ ys, inBounds W H a b = true ∧ a = wrap64 (cx + x) ∧
        b = wrap64 (cy + y)) then m else c a b := by
  intro ys
  induction ys with
  | nil =>
    intro c
    exact ⟨c, rfl, fun a b => by simp⟩
  | cons y ys ih =>
    intro c
    obtain ⟨c1, h1, hc1⟩ := ih (if inBounds W H (wrap64 (cx + x)) (wrap64 (cy + y)) = true
        then setCell c (wrap64 (cx + x)) (wrap64 (cy + y)) m else c)
    refine ⟨c1, ?_, ?_⟩
    · rw [List.foldlM_cons, placeAt_eq]
      exact h1
    · intro a b
      rw [hc1 a b]
      by_cases hys : ∃ y1 ∈ ys, inBounds W H a b = true ∧ a = wrap64 (cx + x) ∧
          b = wrap64 (cy + y1)
      · have hall : ∃ y1 ∈ y :: ys, inBounds W H a b = true ∧ a = wrap64 (cx + x) ∧
            b = wrap64 (cy + y1) := by
          obtain ⟨y1, hm, h⟩ := hys
          exact ⟨y1, List.mem_cons_of_mem y hm, h⟩
        rw [if_pos hys, if_pos hall]
      · rw [if_neg hys]
        by_cases hy : inBounds W H a b = true ∧ a = wrap64 (cx + x) ∧ b = wrap64 (cy + y)
        · have hall : ∃ y1 ∈ y :: ys, inBounds W H a b = true ∧ a = wrap64 (cx + x) ∧
              b = wrap64 (cy + y1) := ⟨y, List.mem_cons_self y ys, hy⟩
          rw [if_pos hall]
          obtain ⟨hb, rfl, rfl⟩ := hy
          simp [hb, setCell]
        · have hall : ¬ ∃ y1 ∈ y :: ys, inBounds W H a b = true ∧ a = wrap64 (cx + x) ∧
              b = wrap64 (cy + y1) := by
            rintro ⟨y1, hm, h⟩
            rcases List.mem_cons.1 hm with rfl | hm1
            · exact hy h
            · exact hys ⟨y1, hm1, h⟩
          rw [if_neg hall]
          by_cases hb : inBounds W H (wrap64 (cx + x)) (wrap64 (cy + y)) = true
          · rw [if_pos hb]
            have hne : ¬ (a = wrap64 (cx + x) ∧ b = wrap64 (cy + y)) := by
              rintro ⟨rfl, rfl⟩
              exact hy ⟨hb, rfl, rfl⟩
            simp only [setCell, hne, if_false]
          · rw [if_neg hb]

/-- The cells written by the double loop of `placePixels` over given offsets. -/
theorem placeLoops_spec (W H : Nat) (cx cy : Int) (m : CellType) (ys : List Int) :
    ∀ (xs : List Int) (c : Cells), ∃ c1,
      xs.foldlM (fun c2 x => ys.foldlM (placeAt W H cx cy m x) c2) c = some c1 ∧
      ∀ a b, c1 a b = if (∃ x ∈ xs, ∃ y ∈ ys, inBounds W H a b = true ∧ a = wrap64 (cx + x) ∧
        b = wrap64 (cy + y)) then m else c a b := by
  intro xs
  induction xs with
  | nil =>
    intro c
    exact ⟨c, rfl, fun a b => by simp⟩
  | cons x xs ih =>
    intro c
    obtain ⟨c0, h0, hc0⟩ := placeColumn_spec W H cx cy m x ys c
    obtain ⟨c1, h1, hc1⟩ := ih c0
    refine ⟨c1, ?_, ?_⟩
    · rw [List.foldlM_cons, h0]
      exact h1
    · intro a b
      rw [hc1 a b, hc0 a b]
      by_cases hxs : ∃ x1 ∈ xs, ∃ y ∈ ys, inBounds W H a b = true ∧ a = wrap64 (cx + x1) ∧
          b = wrap64 (cy + y)
      · have hall : ∃ x1 ∈ x :: xs, ∃ y ∈ ys, inBounds W H a b = true ∧
            a = wrap64 (cx + x1) ∧ b = wrap64 (cy + y) := by
          obtain ⟨x1, hm, h⟩ := hxs
          exact ⟨x1, List.mem_cons_of_mem x hm, h⟩
        rw [if_pos hxs, if_pos hall]
      · rw [if_neg hxs]
        by_cases hx : ∃ y ∈ ys, inBounds W H a b = true ∧ a = wrap64 (cx + x) ∧
            b = wrap64 (cy + y)
        · have hall : ∃ x1 ∈ x :: xs, ∃ y ∈ ys, inBounds W H a b = true ∧
              a = wrap64 (cx + x1) ∧ b = wrap64 (cy + y) := ⟨x, List.mem_cons_self x xs, hx⟩
          rw [if_pos hx, if_pos hall]
        · have hall : ¬ ∃ x1 ∈ x :: xs, ∃ y ∈ ys, inBounds W H a b = true ∧
              a = wrap64 (cx + x1) ∧ b = wrap64 (cy + y) := by
            rintro ⟨x1, hm, h⟩
            rcases List.mem_cons.1 hm with rfl | hm1
            · exact hx h
            · exact hxs ⟨x1, hm1, h⟩
          rw [if_neg hx, if_neg hall]

/-- The function `placePixels` returns, and writes exactly the in-range cells
`(wrap64 (cx + x), wrap64 (cy + y))` with `-half <= x, y < half`. -/
theorem placePixels_spec (W H : Nat) (c : Cells) (cx cy size : Int) (m : CellType) :
    ∃ c1, placePixels W H c cx cy size m = some c1 ∧
      ∀ a b,
        ((∃ x y, (-(Int.tdiv size 2) ≤ x ∧ x < Int.tdiv size 2) ∧
          (-(Int.tdiv size 2) ≤ y ∧ y < Int.tdiv size 2) ∧ inBounds W H a b = true ∧
            a = wrap64 (cx + x) ∧ b = wrap64 (cy + y)) → c1 a b = m) ∧
        ((¬ ∃ x y, (-(Int.tdiv size 2) ≤ x ∧ x < Int.tdiv size 2) ∧
          (-(Int.tdiv size 2) ≤ y ∧ y < Int.tdiv size 2) ∧ inBounds W H a b = true ∧
            a = wrap64 (cx + x) ∧ b = wrap64 (cy + y)) → c1 a b = c a b) := by
  obtain ⟨c1, h1, hc1⟩ := placeLoops_spec W H cx cy m
    (loopVals (-(Int.tdiv size 2)) (Int.tdiv size 2))
    (loopVals (-(Int.tdiv size 2)) (Int.tdiv size 2)) c
  refine ⟨c1, h1, ?_⟩
  intro a b
  rw [hc1 a b]
  constructor
  · rintro ⟨x, y, hx, hy, h⟩
    rw [if_pos ⟨x, (mem_loopVals _ _ x).2 hx, y, (mem_loopVals _ _ y).2 hy, h⟩]
  · intro hn
    rw [if_neg]
    rintro ⟨x, hx, y, hy, h⟩
    exact hn ⟨x, y, (mem_loopVals _ _ x).1 hx, (mem_loopVals _ _ y).1 hy, h⟩

/-! ## Splitting a loop, and passes over cells that do not move -/

theorem loopVals_cons (lo hi : Int) (h : lo < hi) :
    loopVals lo hi = lo :: loopVals (lo + 1) hi := by
  unfold loopVals
  have e : (hi - lo).toNat = (hi - (lo + 1)).toNat + 1 := by omega
  rw [e, List.range_succ_eq_map, List.map_cons, List.map_map]
  congr 1
  · simp
  · apply List.map_congr_left
    intro i _
    simp only [Function.comp_apply, Nat.cast_succ]
    omega

theorem loopVals_nil (lo hi : Int) (h : hi ≤ lo) : loopVals lo hi = [] := by
  unfold loopVals
  have e : (hi - lo).toNat = 0 := by omega
  rw [e]
  rfl

theorem loopVals_split (lo hi v : Int) (h1 : lo ≤ v) (h2 : v < hi) :
    loopVals lo hi = loopVals lo v ++ v :: loopVals (v + 1) hi := by
  obtain ⟨n, hn⟩ : ∃ n : Nat, v = lo + n := ⟨(v - lo).toNat, by omega⟩
  subst hn
  clear h1
  induction n generalizing lo with
  | zero =>
    simp only [Nat.cast_zero, add_zero] at h2 ⊢
    rw [loopVals_nil lo lo (le_refl lo), loopVals_cons lo hi h2]
    rfl
  | succ n ih =>
    have e : lo + ((n + 1 : Nat) : Int) = (lo + 1) + (n : Int) := by push_cast; omega
    rw [e] at h2 ⊢
    rw [loopVals_cons lo hi (by omega), loopVals_cons lo (lo + 1 + n) (by omega),
      ih (lo + 1) h2]
    rfl

theorem foldlM_split {α β : Type} (f : β → α → Option β) (l1 l2 : List α) (a : α)
    (b b1 b2 : β) (h1 : l1.foldlM f b = some b1) (h2 : f b1 a = some b2) :
    (l1 ++ a :: l2).foldlM f b = l2.foldlM f b2 := by
  rw [List.foldlM_append, h1]
  show (a :: l2).foldlM f b1 = l2.foldlM f b2
  rw [List.foldlM_cons, h2]
  rfl

theorem foldlM_cons_some {α β : Type} (f : β → α → Option β) (l : List α) (a : α)
    (b b1 : β) (h : f b a = some b1) : (a :: l).foldlM f b = l.foldlM f b1 := by
  rw [List.foldlM_cons, h]
  rfl

/-- A row whose cells are all Empty or Stone is passed over without change. -/
theorem updateRow_inert (W H : Nat) (rnd : Nat → Nat) (s : World) (y : Int)
    (hy : 0 ≤ y ∧ y < (H : Int))
    (h : ∀ a : Int, 0 ≤ a ∧ a < (W : Int) →
      s.cells a y = CellType.Empty ∨ s.cells a y = Stone) :
    updateRow W H rnd s y = some s := by
  unfold updateRow
  apply foldlM_fixed
  intro a ha
  have ha1 := (mem_loopVals 0 W a).1 ha
  exact stepCell_inert W H rnd s a y ((inBounds_iff W H a y).2 ⟨ha1, hy⟩) (h a ha1)

/-- A segment of a row whose cells are all Empty or Stone is passed over without
change. -/
theorem segment_inert (W H : Nat) (rnd : Nat → Nat) (s : World) (y lo hi : Int)
    (hy : 0 ≤ y ∧ y < (H : Int)) (hlo : 0 ≤ lo) (hhi : hi ≤ (W : Int))
    (h : ∀ a : Int, lo ≤ a ∧ a < hi → s.cells a y = CellType.Empty ∨ s.cells a y = Stone) :
    (loopVals lo hi).foldlM (fun s1 x => stepCell W H rnd s1 x y) s = some s := by
  apply foldlM_fixed
  intro a ha
  have ha1 := (mem_loopVals lo hi a).1 ha
  exact stepCell_inert W H rnd s a y ((inBounds_iff W H a y).2 ⟨⟨by omega, by omega⟩, hy⟩)
    (h a ha1)

/-- Rows whose cells are all Empty or Stone are passed over without change. -/
theorem rows_inert (W H : Nat) (rnd : Nat → Nat) (s : World) (lo hi : Int)
    (hlo : 0 ≤ lo) (hhi : hi ≤ (H : Int))
    (h : ∀ a b : Int, (0 ≤ a ∧ a < (W : Int)) → (lo ≤ b ∧ b < hi) →
      s.cells a b = CellType.Empty ∨ s.cells a b = Stone) :
    (loopVals lo hi).reverse.foldlM (updateRow W H rnd) s = some s := by
  apply foldlM_fixed
  intro b hb
  have hb1 := (mem_loopVals lo hi b).1 (List.mem_reverse.1 hb)
  exact updateRow_inert W H rnd s b ⟨by omega, by omega⟩ (fun a ha => h a b ha hb1)

/-- The pass of `updatePhysics` when a single row `y` holds cells that can move and
within it a single column `x` does: the pass is the loop body at `(x,y)`. -/
theorem updatePhysics_single (W H : Nat) (rnd : Nat → Nat) (s s1 : World) (x y : Int)
    (hb : inBounds W H x y = true)
    (hs : ∀ a b : Int, inBounds W H a b = true → ¬ (a = x ∧ b = y) →
      s.cells a b = CellType.Empty ∨ s.cells a b = Stone)
    (hstep : stepCell W H rnd s x y = some s1)
    (hs1 : ∀ a b : Int, inBounds W H a b = true → (b < y ∨ (b = y ∧ x < a)) →
      s1.cells a b = CellType.Empty ∨ s1.cells a b = Stone) :
    updatePhysics W H rnd s = some s1 := by
  obtain ⟨⟨hx0, hx1⟩, hy0, hy1⟩ := (inBounds_iff W H x y).1 hb
  have hrow : updateRow W H rnd s y = some s1 := by
    unfold updateRow
    rw [loopVals_split 0 W x hx0 hx1]
    rw [foldlM_split (fun s2 a => stepCell W H rnd s2 a y) (loopVals 0 x) (loopVals (x + 1) W) x
      s s s1 ?_ hstep]
    · refine segment_inert W H rnd s1 y (x + 1) W ⟨hy0, hy1⟩ (by omega) (le_refl _) ?_
      intro a ha
      exact hs1 a y ((inBounds_iff W H a y).2 ⟨⟨by omega, by omega⟩, hy0, hy1⟩)
        (Or.inr ⟨rfl, by omega⟩)
    · refine segment_inert W H rnd s y 0 x ⟨hy0, hy1⟩ (le_refl _) (by omega) ?_
      intro a ha
      exact hs a y ((inBounds_iff W H a y).2 ⟨⟨by omega, by omega⟩, hy0, hy1⟩)
        (fun hc => by omega)
  unfold updatePhysics
  rw [loopVals_split 0 H y hy0 hy1, List.reverse_append, List.reverse_cons, List.append_assoc,
    List.singleton_append]
  rw [foldlM_split (updateRow W H rnd) (loopVals (y + 1) H).reverse (loopVals 0 y).reverse y
    s s s1 ?_ hrow]
  · refine rows_inert W H rnd s1 0 y (le_refl _) (by omega) ?_
    intro a b ha hb1
    exact hs1 a b ((inBounds_iff W H a b).2 ⟨ha, by omega, by omega⟩) (Or.inl hb1.2)
  · refine rows_inert W H rnd s (y + 1) H (by omega) (le_refl _) ?_
    intro a b ha hb1
    exact hs a b ((inBounds_iff W H a b).2 ⟨ha, by omega, by omega⟩) (fun hc => by omega)

/-- Sand or Water above an Empty cell of the grid falls into it, without a draw. -/
theorem stepCell_fall (W H : Nat) (rnd : Nat → Nat) (s : World) (x y : Int)
    (hb : inBounds W H x y = true) (hm : s.cells x y = Sand ∨ s.cells x y = Water)
    (hy : y + 1 < (H : Int)) (he : s.cells x (y + 1) = CellType.Empty) :
    stepCell W H rnd s x y = some (World.mk (swapCells s.cells x y x (y + 1)) s.draws) := by
  have hxy := (inBounds_iff W H x y).1 hb
  have hb1 : inBounds W H x (y + 1) = true :=
    (inBounds_iff W H x (y + 1)).2 ⟨hxy.1, by omega, hy⟩
  unfold stepCell
  rcases hm with hc | hc
  · simp only [readCell, hb, if_true, Option.bind_eq_bind, Option.some_bind, Option.pure_def,
      hc, hy, hb1, he]
    exact move_ok W H s.cells x y x (y + 1) Sand CellType.Empty s.draws hb hb1 hc he
  · simp only [readCell, hb, if_true, Option.bind_eq_bind, Option.some_bind, Option.pure_def,
      hc, reduceCtorEq, if_false]
    rw [andAlso_isEmptyAt W H s.cells x (y + 1) _ (fun _ => hb1)]
    simp only [hy, he, decide_True, Bool.and_self, Option.some_bind, if_true]
    exact move_ok W H s.cells x y x (y + 1) Water CellType.Empty s.draws hb hb1 hc he

/-- One call of `updatePhysics` on a lone Sand or Water cell that is not in the
bottom row moves it one row down. -/
theorem updatePhysics_lone (W H : Nat) (rnd : Nat → Nat) (s : World) (x y : Int)
    (m : CellType) (hm : m = Sand ∨ m = Water) (hb : inBounds W H x y = true)
    (hy : y + 1 < (H : Int)) (hl : OnlyAt W H s.cells x y m) :
    ∃ s1, updatePhysics W H rnd s = some s1 ∧ OnlyAt W H s1.cells x (y + 1) m ∧
      s1.draws = s.draws := by
  have hxy := (inBounds_iff W H x y).1 hb
  have hb1 : inBounds W H x (y + 1) = true :=
    (inBounds_iff W H x (y + 1)).2 ⟨hxy.1, by omega, hy⟩
  have hc : s.cells x y = m := by
    rw [hl x y hb]
    simp
  have he : s.cells x (y + 1) = CellType.Empty := by
    rw [hl x (y + 1) hb1]
    simp
  have hnew : OnlyAt W H (swapCells s.cells x y x (y + 1)) x (y + 1) m := by
    intro a b hab
    unfold swapCells
    by_cases h1 : a = x ∧ b = y
    · obtain ⟨rfl, rfl⟩ := h1
      simp [he]
    · by_cases h2 : a = x ∧ b = y + 1
      · obtain ⟨rfl, rfl⟩ := h2
        simp [hc]
      · simp only [h1, h2, if_false]
        rw [hl a b hab]
        simp [h1]
  refine ⟨World.mk (swapCells s.cells x y x (y + 1)) s.draws, ?_, hnew, rfl⟩
  refine updatePhysics_single W H rnd s _ x y hb ?_
    (stepCell_fall W H rnd s x y hb (by rw [hc]; exact hm) hy he) ?_
  · intro a b hab hne
    rw [hl a b hab]
    simp [hne]
  · intro a b hab hpos
    show swapCells s.cells x y x (y + 1) a b = CellType.Empty ∨
      swapCells s.cells x y x (y + 1) a b = Stone
    rw [hnew a b hab]
    have hne : ¬ (a = x ∧ b = y + 1) := by
      rintro ⟨rfl, rfl⟩
      omega
    simp [hne]

/-! ## Properties of the physics step and of placement -/

/-- C1 (conservation): for every grid and every sequence of tie-break outcomes,
`updatePhysics` returns and the number of non-Empty cells after the call equals
the number before it; the same holds after any number of calls. -/
theorem updatePhysics_conserves_nonEmpty (W H : Nat) (rnd : Nat → Nat) (s : World) :
    (∃ s1, updatePhysics W H rnd s = some s1 ∧
      countNonEmpty W H s1.cells = countNonEmpty W H s.cells) ∧
    ∀ n : Nat, ∃ s1, runPhysics W H rnd n s = some s1 ∧
      countNonEmpty W H s1.cells = countNonEmpty W H s.cells := by
  have hP : ∀ (t : World) (x y tx ty : Int) (d : Nat), inBounds W H x y = true →
      Moves W H t.cells x y tx ty → (d = t.draws ∨ d = t.draws + 1) →
      countNonEmpty W H t.cells = countNonEmpty W H s.cells →
      countNonEmpty W H (World.mk (swapCells t.cells x y tx ty) d).cells =
        countNonEmpty W H s.cells := by
    intro t x y tx ty d hb hm _ ht
    rw [← ht]
    exact countWhere_swap W H _ t.cells x y tx ty hb hm.1
  exact ⟨updatePhysics_inv W H rnd
      (fun t => countNonEmpty W H t.cells = countNonEmpty W H s.cells) hP s rfl,
    fun n => runPhysics_inv W H rnd
      (fun t => countNonEmpty W H t.cells = countNonEmpty W H s.cells) hP n s rfl⟩

theorem swap_keeps_stone (W H : Nat) (c : Cells) (x y tx ty : Int)
    (hm : Moves W H c x y tx ty) (a b : Int) :
    swapCells c x y tx ty a b = Stone ↔ c a b = Stone := by
  obtain ⟨_, _, _, _, hk⟩ := hm
  have hsrc : c x y ≠ Stone := by
    rcases hk with ⟨h, _⟩ | ⟨h, _⟩ <;> rw [h] <;> decide
  have htgt : c tx ty ≠ Stone := by
    rcases hk with ⟨_, _, ⟨_, h | h⟩ | ⟨_, h, _⟩⟩ | ⟨_, h⟩ <;> rw [h] <;> decide
  unfold swapCells
  by_cases h1 : a = x ∧ b = y
  · obtain ⟨rfl, rfl⟩ := h1
    simp [hsrc, htgt]
  · by_cases h2 : a = tx ∧ b = ty
    · obtain ⟨rfl, rfl⟩ := h2
      simp [h1, hsrc, htgt]
    · simp [h1, h2]

/-- C3 (Stone immutability under physics): for every grid and every sequence of
tie-break outcomes, `updatePhysics` returns and a cell is Stone after the call if
and only if it was Stone before; the same holds across every single execution of
the loop body, so no Stone cell is overwritten on the way and none is created. -/
theorem updatePhysics_stone_iff (W H : Nat) (rnd : Nat → Nat) (s : World) :
    (∃ s1, updatePhysics W H rnd s = some s1 ∧
      ∀ a b : Int, s1.cells a b = Stone ↔ s.cells a b = Stone) ∧
    (∀ (t : World) (x y : Int), inBounds W H x y = true →
      ∃ t1, stepCell W H rnd t x y = some t1 ∧
        ∀ a b : Int, t1.cells a b = Stone ↔ t.cells a b = Stone) := by
  constructor
  · refine updatePhysics_inv W H rnd
      (fun t => ∀ a b : Int, t.cells a b = Stone ↔ s.cells a b = Stone) ?_ s
      (fun _ _ => Iff.rfl)
    intro t x y tx ty d _ hm _ ht a b
    rw [← ht a b]
    exact swap_keeps_stone W H t.cells x y tx ty hm a b
  · intro t x y hb
    refine stepCell_inv W H rnd
      (fun u => ∀ a b : Int, u.cells a b = Stone ↔ t.cells a b = Stone) ?_ t x y hb
      (fun _ _ => Iff.rfl)
    intro u x1 y1 tx ty d _ hm _ hu a b
    rw [← hu a b]
    exact swap_keeps_stone W H u.cells x1 y1 tx ty hm a b

/-- C5 (placement exactness, brush size 4): for every grid of dimensions at most
2^62, every material and every centre `(cx,cy)` that is a Go `int`,
`placePixels(cx,cy,4,m)` returns, and afterwards a cell `(tx,ty)` of the grid holds
`m` if `cx-2 <= tx <= cx+1` and `cy-2 <= ty <= cy+1`, and its previous value
otherwise. -/
theorem placePixels_brush4 (W H : Nat) (c : Cells) (cx cy : Int) (m : CellType)
    (hW : W ≤ 4611686018427387904) (hH : H ≤ 4611686018427387904)
    (hcx : isInt64 cx) (hcy : isInt64 cy) :
    ∃ c1, placePixels W H c cx cy 4 m = some c1 ∧
      ∀ tx ty : Int, inBounds W H tx ty = true →
        c1 tx ty = if cx - 2 ≤ tx ∧ tx ≤ cx + 1 ∧ cy - 2 ≤ ty ∧ ty ≤ cy + 1 then m else c tx ty := by
  obtain ⟨c1, h1, hc1⟩ := placePixels_spec W H c cx cy 4 m
  refine ⟨c1, h1, ?_⟩
  intro tx ty hb
  obtain ⟨⟨hx0, hx1⟩, hy0, hy1⟩ := (inBounds_iff W H tx ty).1 hb
  have hhalf : Int.tdiv 4 2 = 2 := by decide
  rw [hhalf] at hc1
  unfold isInt64 at hcx hcy
  have hWi : (W : Int) ≤ 4611686018427387904 := by exact_mod_cast hW
  have hHi : (H : Int) ≤ 4611686018427387904 := by exact_mod_cast hH
  by_cases hwin : cx - 2 ≤ tx ∧ tx ≤ cx + 1 ∧ cy - 2 ≤ ty ∧ ty ≤ cy + 1
  · rw [if_pos hwin]
    refine (hc1 tx ty).1 ⟨tx - cx, ty - cy, by omega, by omega, hb, ?_, ?_⟩
    · unfold wrap64
      omega
    · unfold wrap64
      omega
  · rw [if_neg hwin]
    refine (hc1 tx ty).2 ?_
    rintro ⟨x, y, hx, hy, _, hxe, hye⟩
    unfold wrap64 at hxe hye
    apply hwin
    omega

/-- Witness of C5: the brush at the corner cell `(0,0)` of the program's grid. -/
theorem placePixels_brush4_witness :
    ∃ c1, placePixels CellsX CellsY emptyCells 0 0 4 Sand = some c1 ∧
      ∀ tx ty : Int, inBounds CellsX CellsY tx ty = true →
        c1 tx ty = if (0 : Int) - 2 ≤ tx ∧ tx ≤ 0 + 1 ∧ (0 : Int) - 2 ≤ ty ∧ ty ≤ 0 + 1
          then Sand else emptyCells tx ty :=
  placePixels_brush4 CellsX CellsY emptyCells 0 0 Sand (by decide) (by decide)
    ⟨by decide, by decide⟩ ⟨by decide, by decide⟩

/-- C7 (containment on Stone): for every grid in which `(x,y)` is Sand and
`(x,y+1)` is Stone, and for every sequence of tie-break outcomes, any number of
calls of `updatePhysics` returns and leaves `(x,y)` Sand and `(x,y+1)` Stone. -/
theorem sand_on_stone_stays (W H : Nat) (rnd : Nat → Nat) (s : World) (x y : Int)
    (hs : s.cells x y = Sand) (ht : s.cells x (y + 1) = Stone) (n : Nat) :
    ∃ s1, runPhysics W H rnd n s = some s1 ∧
      s1.cells x y = Sand ∧ s1.cells x (y + 1) = Stone := by
  refine runPhysics_inv W H rnd
    (fun t => t.cells x y = Sand ∧ t.cells x (y + 1) = Stone) ?_ n s ⟨hs, ht⟩
  rintro t a b ta tb d _ ⟨_, _, _, hne, hk⟩ _ ⟨h1, h2⟩
  show swapCells t.cells a b ta tb x y = Sand ∧ swapCells t.cells a b ta tb x (y + 1) = Stone
  have hsrc : t.cells a b = Sand ∨ t.cells a b = Water := by
    rcases hk with ⟨h, _⟩ | ⟨h, _⟩
    · exact Or.inl h
    · exact Or.inr h
  have htgt : t.cells ta tb = CellType.Empty ∨ t.cells ta tb = Water := by
    rcases hk with ⟨_, _, ⟨_, h | h⟩ | ⟨_, h, _⟩⟩ | ⟨_, h⟩
    · exact Or.inl h
    · exact Or.inr h
    · exact Or.inl h
    · exact Or.inl h
  have e1 : ¬ (x = a ∧ y = b) := by
    rintro ⟨rfl, rfl⟩
    rcases hk with ⟨_, hty, ⟨hx, h | h⟩ | ⟨_, _, h⟩⟩ | ⟨h, _⟩
    · rw [hx, hty, h2] at h
      exact absurd h (by decide)
    · rw [hx, hty, h2] at h
      exact absurd h (by decide)
    · rw [h2] at h
      exact absurd h (by decide)
    · rw [h1] at h
      exact absurd h (by decide)
  have e2 : ¬ (x = ta ∧ y = tb) := by
    rintro ⟨rfl, rfl⟩
    rcases htgt with h | h <;> rw [h1] at h <;> exact absurd h (by decide)
  have e3 : ¬ (x = a ∧ y + 1 = b) := by
    rintro ⟨rfl, rfl⟩
    rcases hsrc with h | h <;> rw [h2] at h <;> exact absurd h (by decide)
  have e4 : ¬ (x = ta ∧ y + 1 = tb) := by
    rintro ⟨rfl, rfl⟩
    rcases htgt with h | h <;> rw [h2] at h <;> exact absurd h (by decide)
  simp only [swapCells, e1, e2, e3, e4, if_false]
  exact ⟨h1, h2⟩

/-- Witness of C7: Sand on Stone in the middle column of a 3 x 3 grid, five calls. -/
theorem sand_on_stone_stays_witness :
    ∃ s1, runPhysics 3 3 (fun _ => 0) 5
        (World.mk (setCell (setCell emptyCells 1 1 Sand) 1 2 Stone) 0) = some s1 ∧
      s1.cells 1 1 = Sand ∧ s1.cells 1 (1 + 1) = Stone :=
  sand_on_stone_stays 3 3 (fun _ => 0)
    (World.mk (setCell (setCell emptyCells 1 1 Sand) 1 2 Stone) 0) 1 1 (by decide) (by decide) 5

/-- C8 (bounds safety): for every grid and every sequence of tie-break outcomes
`updatePhysics` performs no out-of-range read or write (it returns, and the
coordinates outside the grid are left as they were), and for all integers `cx`,
`cy`, `size` so does `placePixels`. -/
theorem bounds_safety (W H : Nat) (rnd : Nat → Nat) (s : World) (c : Cells)
    (cx cy size : Int) (m : CellType) :
    (∃ s1, updatePhysics W H rnd s = some s1 ∧
      ∀ a b : Int, inBounds W H a b = false → s1.cells a b = s.cells a b) ∧
    (∃ c1, placePixels W H c cx cy size m = some c1 ∧
      ∀ a b : Int, inBounds W H a b = false → c1 a b = c a b) := by
  constructor
  · refine updatePhysics_inv W H rnd
      (fun t => ∀ a b : Int, inBounds W H a b = false → t.cells a b = s.cells a b) ?_ s
      (fun _ _ _ => rfl)
    rintro t x y tx ty d hb ⟨hb2, _⟩ _ ht a b hab
    rw [← ht a b hab]
    show swapCells t.cells x y tx ty a b = t.cells a b
    have e1 : ¬ (a = x ∧ b = y) := by
      rintro ⟨rfl, rfl⟩
      rw [hb] at hab
      exact absurd hab (by decide)
    have e2 : ¬ (a = tx ∧ b = ty) := by
      rintro ⟨rfl, rfl⟩
      rw [hb2] at hab
      exact absurd hab (by decide)
    simp only [swapCells, e1, e2, if_false]
  · obtain ⟨c1, h1, hc1⟩ := placePixels_spec W H c cx cy size m
    refine ⟨c1, h1, ?_⟩
    intro a b hab
    refine (hc1 a b).2 ?_
    rintro ⟨_, _, _, _, hb, _⟩
    rw [hb] at hab
    exact absurd hab (by decide)

/-- C4 (single free-fall): in a grid whose only non-Empty cell is one Sand or Water
cell at `(x,y0)`, `k` calls of `updatePhysics` with `y0 + k <= H - 1` return a grid
whose only non-Empty cell is that material at `(x,y0+k)`, and no draw is taken; in
particular `H - 1 - y0` calls bring it to `(x,H-1)`. -/
theorem single_free_fall (W H : Nat) (rnd : Nat → Nat) (x : Int) (m : CellType)
    (hm : m = Sand ∨ m = Water) (k : Nat) :
    ∀ (s : World) (y0 : Int), inBounds W H x y0 = true → OnlyAt W H s.cells x y0 m →
      y0 + (k : Int) ≤ (H : Int) - 1 →
      (∃ s1, runPhysics W H rnd k s = some s1 ∧ OnlyAt W H s1.cells x (y0 + k) m ∧
        s1.draws = s.draws) ∧
      (∃ s2, runPhysics W H rnd ((H : Int) - 1 - y0).toNat s = some s2 ∧
        OnlyAt W H s2.cells x ((H : Int) - 1) m ∧ s2.draws = s.draws) := by
  have main : ∀ (j : Nat) (s : World) (y0 : Int), inBounds W H x y0 = true →
      OnlyAt W H s.cells x y0 m → y0 + (j : Int) ≤ (H : Int) - 1 →
      ∃ s1, runPhysics W H rnd j s = some s1 ∧ OnlyAt W H s1.cells x (y0 + j) m ∧
        s1.draws = s.draws := by
    intro j
    induction j with
    | zero =>
      intro s y0 _ hl _
      refine ⟨s, rfl, ?_, rfl⟩
      simpa using hl
    | succ j ih =>
      intro s y0 hb hl hk
      have hxy := (inBounds_iff W H x y0).1 hb
      have hk1 : y0 + 1 + (j : Int) ≤ (H : Int) - 1 := by push_cast at hk; omega
      obtain ⟨s1, h1, hl1, hd1⟩ := updatePhysics_lone W H rnd s x y0 m hm hb (by omega) hl
      have hb1 : inBounds W H x (y0 + 1) = true :=
        (inBounds_iff W H x (y0 + 1)).2 ⟨hxy.1, by omega, by omega⟩
      obtain ⟨s2, h2, hl2, hd2⟩ := ih s1 (y0 + 1) hb1 hl1 hk1
      refine ⟨s2, ?_, ?_, by rw [hd2, hd1]⟩
      · simp only [runPhysics, h1, Option.some_bind]
        exact h2
      · have e : y0 + ((j + 1 : Nat) : Int) = y0 + 1 + (j : Int) := by push_cast; omega
        rw [e]
        exact hl2
  intro s y0 hb hl hk
  refine ⟨main k s y0 hb hl hk, ?_⟩
  have hxy := (inBounds_iff W H x y0).1 hb
  have e : y0 + ((((H : Int) - 1 - y0).toNat : Nat) : Int) = (H : Int) - 1 := by omega
  obtain ⟨s2, h2, hl2, hd2⟩ := main ((H : Int) - 1 - y0).toNat s y0 hb hl (by omega)
  rw [e] at hl2
  exact ⟨s2, h2, hl2, hd2⟩

/-- Witness of C4: a Water cell at `(1,0)` of a 3 x 4 grid, two calls. -/
theorem single_free_fall_witness :
    (∃ s1, runPhysics 3 4 (fun _ => 0) 2 (World.mk (setCell emptyCells 1 0 Water) 0) = some s1 ∧
      OnlyAt 3 4 s1.cells 1 (0 + (2 : Nat)) Water ∧
      s1.draws = (World.mk (setCell emptyCells 1 0 Water) 0).draws) ∧
    (∃ s2, runPhysics 3 4 (fun _ => 0) (((4 : Nat) : Int) - 1 - 0).toNat
        (World.mk (setCell emptyCells 1 0 Water) 0) = some s2 ∧
      OnlyAt 3 4 s2.cells 1 (((4 : Nat) : Int) - 1) Water ∧
      s2.draws = (World.mk (setCell emptyCells 1 0 Water) 0).draws) :=
  single_free_fall 3 4 (fun _ => 0) 1 Water (Or.inr rfl) 2
    (World.mk (setCell emptyCells 1 0 Water) 0) 0 (by decide)
    (by intro a b _; simp [setCell, emptyCells]) (by decide)

/-- C2 (at most one move per call) fails on the program's grid: with Water at
`(0,148)` over Stone at `(0,149)` and `(1,149)`, one call of `updatePhysics` flows
the Water to `(1,148)` and then, when the scan reaches that column, on to `(2,149)`.
It ends two columns away from its cell, whatever the tie-break sequence. -/
theorem water_moves_twice (rnd : Nat → Nat) (d : Nat) :
    ∃ s1, updatePhysics CellsX CellsY rnd (World.mk flowGrid d) = some s1 ∧
      s1.cells 2 149 = Water ∧ s1.draws = d ∧
      ∀ a b : Int, inBounds CellsX CellsY a b = true → s1.cells a b = Water →
        a = 2 ∧ b = 149 := by
  have hX : CellsX = 200 := rfl
  have hY : CellsY = 150 := rfl
  rw [hX, hY]
  have hA : stepCell 200 150 rnd (World.mk flowGrid d) 0 148 =
      some (World.mk (setCell (setCell flowGrid 1 148 Water) 0 148 CellType.Empty) d) := rfl
  have hB : stepCell 200 150 rnd
      (World.mk (setCell (setCell flowGrid 1 148 Water) 0 148 CellType.Empty) d) 1 148 =
      some (World.mk (setCell (setCell (setCell (setCell flowGrid 1 148 Water) 0 148
        CellType.Empty) 2 149 Water) 1 148 CellType.Empty) d) := rfl
  have hrow : updateRow 200 150 rnd (World.mk flowGrid d) 148 =
      some (World.mk (setCell (setCell (setCell (setCell flowGrid 1 148 Water) 0 148
        CellType.Empty) 2 149 Water) 1 148 CellType.Empty) d) := by
    unfold updateRow
    have e1 : (0 : Int) + 1 = 1 := rfl
    rw [loopVals_cons 0 ((200 : Nat) : Int) (by omega),
      loopVals_cons (0 + 1) ((200 : Nat) : Int) (by omega), e1,
      foldlM_cons_some (fun s1 x => stepCell 200 150 rnd s1 x 148) _ 0 _ _ hA,
      foldlM_cons_some (fun s1 x => stepCell 200 150 rnd s1 x 148) _ 1 _ _ hB]
    refine segment_inert 200 150 rnd _ 148 (1 + 1) ((200 : Nat) : Int) (by omega) (by omega)
      (le_refl _) ?_
    intro a ha
    simp only [setCell, flowGrid, emptyCells]
    split_ifs <;> first | omega | simp
  refine ⟨World.mk (setCell (setCell (setCell (setCell flowGrid 1 148 Water) 0 148
    CellType.Empty) 2 149 Water) 1 148 CellType.Empty) d, ?_, ?_, rfl, ?_⟩
  · unfold updatePhysics
    rw [loopVals_split 0 ((150 : Nat) : Int) 148 (by omega) (by omega), List.reverse_append,
      List.reverse_cons,
      List.append_assoc, List.singleton_append]
    rw [foldlM_split (updateRow 200 150 rnd) (loopVals (148 + 1) ((150 : Nat) : Int)).reverse
      (loopVals 0 148).reverse 148 (World.mk flowGrid d) (World.mk flowGrid d) _ ?_ hrow]
    · refine rows_inert 200 150 rnd _ 0 148 (le_refl _) (by omega) ?_
      intro a b ha hb
      simp only [setCell, flowGrid, emptyCells]
      split_ifs <;> first | omega | simp
    · refine rows_inert 200 150 rnd _ (148 + 1) ((150 : Nat) : Int) (by omega) (le_refl _) ?_
      intro a b ha hb
      simp only [setCell, flowGrid, emptyCells]
      split_ifs <;> first | omega | simp
  · rfl
  · intro a b _
    simp only [setCell, flowGrid, emptyCells]
    split_ifs <;> first | omega | simp

/-- With `size = 1` the loops of `placePixels` run from `0` to `0`: on an all-Empty
grid no cell holds Sand afterwards and `(cx,cy)` is still Empty. -/
theorem placePixels_size_one_writes_nothing (W H : Nat) (cx cy : Int) :
    ∃ c1, placePixels W H emptyCells cx cy 1 Sand = some c1 ∧
      countNonEmpty W H c1 = 0 ∧ c1 cx cy = CellType.Empty :=
  ⟨emptyCells, rfl, by simp [countNonEmpty, countWhere, emptyCells], rfl⟩

theorem sameCells_iff (W H : Nat) (c d : Cells) :
    sameCells W H c d = true ↔ ∀ a b : Int, inBounds W H a b = true → c a b = d a b := by
  simp only [sameCells, List.all_eq_true, mem_loopVals, decide_eq_true_eq, inBounds_iff]
  constructor
  · intro h a b hab
    exact h a hab.1 b hab.2
  · intro h a ha b hb
    exact h a b ⟨ha, hb⟩

/-- The scenario of the 10 x 10 grid, evaluated: brush of size 4 at `(5,0)`, then
nine calls of `updatePhysics`. -/
theorem scenario_eval (rnd : Nat → Nat) :
    ∃ c1 s1, placePixels 10 10 emptyCells 5 0 4 Sand = some c1 ∧
      runPhysics 10 10 rnd 9 (World.mk c1 0) = some s1 ∧ s1.draws = 0 ∧
      ∀ a b : Int, inBounds 10 10 a b = true → s1.cells a b = sandPile a b := by
  have h : ((placePixels 10 10 emptyCells 5 0 4 Sand).bind fun c =>
      (runPhysics 10 10 rnd 9 (World.mk c 0)).map fun s =>
        (sameCells 10 10 s.cells sandPile && decide (s.draws = 0))) = some true := rfl
  cases hp : placePixels 10 10 emptyCells 5 0 4 Sand with
  | none =>
    rw [hp] at h
    exact absurd h (by simp)
  | some c1 =>
    rw [hp, Option.some_bind] at h
    cases hr : runPhysics 10 10 rnd 9 (World.mk c1 0) with
    | none =>
      rw [hr] at h
      exact absurd h (by simp)
    | some s1 =>
      rw [hr, Option.map_some', Option.some.injEq, Bool.and_eq_true, decide_eq_true_eq] at h
      exact ⟨c1, s1, rfl, hr, h.2, (sameCells_iff 10 10 s1.cells sandPile).1 h.1⟩

/-- C9 as stated fails: for no sequence of tie-break outcomes does the scenario end
with Sand at `(5,9)` as the only non-Empty cell. -/
theorem scenario_not_single_grain :
    ¬ ∃ (rnd : Nat → Nat) (c1 : Cells) (s1 : World),
      placePixels 10 10 emptyCells 5 0 4 Sand = some c1 ∧
      runPhysics 10 10 rnd 9 (World.mk c1 0) = some s1 ∧ OnlyAt 10 10 s1.cells 5 9 Sand := by
  rintro ⟨rnd, c1, s1, hp, hr, hl⟩
  obtain ⟨c2, s2, hp2, hr2, _, hs2⟩ := scenario_eval rnd
  rw [hp] at hp2
  obtain rfl := Option.some.inj hp2
  rw [hr] at hr2
  obtain rfl := Option.some.inj hr2
  have h1 := hl 4 9 (by decide)
  have h2 := hs2 4 9 (by decide)
  rw [h2] at h1
  exact absurd h1 (by decide)

/-- C9, amended: on a 10 x 10 grid initialised to Empty, `placePixels(5,0,4,Sand)`
followed by nine calls of `updatePhysics` returns, for every sequence of tie-break
outcomes and without a draw, the grid with Sand on `(2..7, 9)` and on `(4,8)`,
`(5,8)` and every other cell Empty. -/
theorem scenario_brush_pile (rnd : Nat → Nat) :
    ∃ c1 s1, placePixels 10 10 emptyCells 5 0 4 Sand = some c1 ∧
      runPhysics 10 10 rnd 9 (World.mk c1 0) = some s1 ∧ s1.draws = 0 ∧
      ∀ a b : Int, inBounds 10 10 a b = true →
        s1.cells a b = if (b = 9 ∧ 2 ≤ a ∧ a ≤ 7) ∨ (b = 8 ∧ 4 ≤ a ∧ a ≤ 5)
          then Sand else CellType.Empty := by
  obtain ⟨c1, s1, hp, hr, hd, hs⟩ := scenario_eval rnd
  exact ⟨c1, s1, hp, hr, hd, fun a b hab => hs a b hab⟩

/-! ## Physics timing -/

theorem physicsTiming_zero : physicsTiming 0 = (0, true) := by decide

/-- A frame that starts with `physicsTick = 0` invokes `updatePhysics` and leaves
`physicsTick = 0`. -/
theorem Update_tick_zero (W H : Nat) (rnd : Nat → Nat) (inp : Input) (g : Game) (d : Nat)
    (h0 : g.physicsTick = 0) :
    ∃ g1 d1, Update W H rnd inp g d = some (g1, d1, true) ∧ g1.physicsTick = 0 := by
  unfold Update
  rw [h0, physicsTiming_zero]
  simp only [Option.bind_eq_bind, Option.pure_def, if_true]
  by_cases hm : inp.mouseLeft = true
  · obtain ⟨c1, hc1, _⟩ := placePixels_spec W H g.cells (Int.tdiv inp.mx (CellSize : Int))
      (Int.tdiv inp.my (CellSize : Int)) 4 (selectChoice inp g.actualChoice)
    obtain ⟨s1, hs1, _⟩ := updatePhysics_inv W H rnd (fun _ => True)
      (fun _ _ _ _ _ _ _ _ _ _ => trivial) (World.mk c1 d) trivial
    simp only [hm, if_true, hc1, Option.some_bind, hs1]
    exact ⟨_, _, rfl, rfl⟩
  · obtain ⟨s1, hs1, _⟩ := updatePhysics_inv W H rnd (fun _ => True)
      (fun _ _ _ _ _ _ _ _ _ _ => trivial) (World.mk g.cells d) trivial
    simp only [hm, if_false, Option.some_bind, hs1, Bool.false_eq_true]
    exact ⟨_, _, rfl, rfl⟩

/-- Starting from `physicsTick = 0`, every frame invokes `updatePhysics`. -/
theorem runUpdates_count (W H : Nat) (rnd : Nat → Nat) :
    ∀ (inputs : List Input) (g : Game) (d : Nat), g.physicsTick = 0 →
      ∃ g1 d1, runUpdates W H rnd inputs g d = some (g1, d1, inputs.length) := by
  intro inputs
  induction inputs with
  | nil => intro g d _; exact ⟨g, d, rfl⟩
  | cons inp rest ih =>
    intro g d h0
    obtain ⟨g1, d1, hu, h1⟩ := Update_tick_zero W H rnd inp g d h0
    obtain ⟨g2, d2, hr⟩ := ih g1 d1 h1
    refine ⟨g2, d2, ?_⟩
    simp only [runUpdates, hu, Option.some_bind, hr, Option.map_some', if_true,
      List.length_cons]

/-- C10 (physics rate) fails on the code: `PhysicsFPS = 50` does not divide 60, the
period `60 / PhysicsFPS` of the integer division is 1, and so, starting from
`physicsTick = 0`, 60 consecutive calls of `Update` invoke `updatePhysics` 60
times, not `PhysicsFPS` times, whatever the inputs. -/
theorem sixty_frames_sixty_steps (rnd : Nat → Nat) (inputs : Fin 60 → Input) (c : Cells)
    (choice : CellType) (d : Nat) :
    ¬ (PhysicsFPS ∣ 60) ∧ Int.tdiv 60 (PhysicsFPS : Int) = 1 ∧
      (∃ g1 d1, runUpdates CellsX CellsY rnd (List.ofFn inputs) (Game.mk c choice 0) d =
        some (g1, d1, 60)) ∧ PhysicsFPS ≠ 60 := by
  refine ⟨by decide, by decide, ?_, by decide⟩
  obtain ⟨g1, d1, h⟩ := runUpdates_count CellsX CellsY rnd (List.ofFn inputs)
    (Game.mk c choice 0) d rfl
  rw [List.length_ofFn] at h
  exact ⟨g1, d1, h⟩

/-! ## Per-material counts, the floor, and the order of the rows -/

/-- C14 (per-material conservation): for every grid and every sequence of tie-break
outcomes, `updatePhysics` returns and leaves the number of Sand cells and the
number of Water cells unchanged, as it does the number of cells of every material. -/
theorem updatePhysics_conserves_each (W H : Nat) (rnd : Nat → Nat) (s : World) :
    ∃ s1, updatePhysics W H rnd s = some s1 ∧
      countOf W H Sand s1.cells = countOf W H Sand s.cells ∧
      countOf W H Water s1.cells = countOf W H Water s.cells ∧
      ∀ m : CellType, countOf W H m s1.cells = countOf W H m s.cells := by
  obtain ⟨s1, h1, hall⟩ := updatePhysics_inv W H rnd
    (fun t => ∀ m : CellType, countOf W H m t.cells = countOf W H m s.cells)
    (fun t x y tx ty d hb hm _ ht m => by
      rw [← ht m]
      exact countWhere_swap W H _ t.cells x y tx ty hb hm.1) s (fun _ => rfl)
  exact ⟨s1, h1, hall Sand, hall Water, hall⟩

/-- C16 (Sand rests on the floor): for every grid in which the bottom-row cell
`(x, H-1)` is Sand, and for every sequence of tie-break outcomes, any number of
calls of `updatePhysics` returns and leaves that cell Sand. -/
theorem sand_on_floor_stays (W H : Nat) (rnd : Nat → Nat) (s : World) (x : Int)
    (hs : s.cells x ((H : Int) - 1) = Sand) (n : Nat) :
    ∃ s1, runPhysics W H rnd n s = some s1 ∧ s1.cells x ((H : Int) - 1) = Sand := by
  refine runPhysics_inv W H rnd (fun t => t.cells x ((H : Int) - 1) = Sand) ?_ n s hs
  rintro t a b ta tb d _ ⟨hb2, _, _, _, hk⟩ _ h1
  show swapCells t.cells a b ta tb x ((H : Int) - 1) = Sand
  have htb := ((inBounds_iff W H ta tb).1 hb2).2
  have e1 : ¬ (x = a ∧ (H : Int) - 1 = b) := by
    rintro ⟨rfl, rfl⟩
    rcases hk with ⟨_, hty, _⟩ | ⟨h, _⟩
    · omega
    · rw [h1] at h
      exact absurd h (by decide)
  have e2 : ¬ (x = ta ∧ (H : Int) - 1 = tb) := by
    rintro ⟨rfl, rfl⟩
    rcases hk with ⟨_, _, ⟨_, h | h⟩ | ⟨_, h, _⟩⟩ | ⟨_, h⟩ <;> rw [h1] at h <;>
      exact absurd h (by decide)
  simp only [swapCells, e1, e2, if_false]
  exact h1

/-- Witness of C16: Sand in the bottom row of a 3 x 3 grid, four calls. -/
theorem sand_on_floor_stays_witness :
    ∃ s1, runPhysics 3 3 (fun _ => 1) 4 (World.mk (setCell emptyCells 1 2 Sand) 0) = some s1 ∧
      s1.cells 1 (((3 : Nat) : Int) - 1) = Sand :=
  sand_on_floor_stays 3 3 (fun _ => 1) (World.mk (setCell emptyCells 1 2 Sand) 0) 1
    (by decide) 4

theorem loopVals_snoc (lo v : Int) (h : lo ≤ v) :
    loopVals lo (v + 1) = loopVals lo v ++ [v] := by
  rw [loopVals_split lo (v + 1) v h (by omega), loopVals_nil (v + 1) (v + 1) (le_refl _)]

/-- Rows are visited from the bottom up: an invariant indexed by the row about to
be visited, handed down by each row pass, holds below row 0 at the end. -/
theorem rows_desc_inv (W H : Nat) (rnd : Nat → Nat) (P : Int → World → Prop)
    (hrow : ∀ (y : Int) (s : World), (0 ≤ y ∧ y < (H : Int)) → P y s →
      ∃ s1, updateRow W H rnd s y = some s1 ∧ P (y - 1) s1) :
    ∀ n : Nat, (n : Int) ≤ (H : Int) → ∀ s : World, P ((n : Int) - 1) s →
      ∃ s1, (loopVals 0 (n : Int)).reverse.foldlM (updateRow W H rnd) s = some s1 ∧
        P (-1) s1 := by
  intro n
  induction n with
  | zero =>
    intro _ s hs
    refine ⟨s, ?_, by simpa using hs⟩
    rw [Nat.cast_zero, loopVals_nil 0 0 (le_refl _)]
    rfl
  | succ n ih =>
    intro hn s hs
    have e : ((n + 1 : Nat) : Int) = (n : Int) + 1 := by push_cast; rfl
    rw [e] at hn hs ⊢
    have hs0 : P (n : Int) s := by
      have e2 : (n : Int) + 1 - 1 = (n : Int) := by omega
      rw [e2] at hs
      exact hs
    obtain ⟨s1, h1, hP1⟩ := hrow (n : Int) s ⟨by omega, by omega⟩ hs0
    obtain ⟨s2, h2, hP2⟩ := ih (by omega) s1 hP1
    refine ⟨s2, ?_, hP2⟩
    rw [loopVals_snoc 0 (n : Int) (by omega), List.reverse_append, List.reverse_singleton,
      List.singleton_append, foldlM_cons_some (updateRow W H rnd) _ (n : Int) s s1 h1]
    exact h2

/-- An invariant indexed by the row being visited, kept by every move made from
that row and handed down to the next row, holds after `updatePhysics`. -/
theorem updatePhysics_desc_inv (W H : Nat) (rnd : Nat → Nat) (P : Int → World → Prop)
    (hP : ∀ s x y tx ty d, inBounds W H x y = true → Moves W H s.cells x y tx ty →
      (d = s.draws ∨ d = s.draws + 1) → P y s → P y (World.mk (swapCells s.cells x y tx ty) d))
    (hdown : ∀ (y : Int) (s : World), P y s → P (y - 1) s)
    (s : World) (hs : P ((H : Int) - 1) s) :
    ∃ s1, updatePhysics W H rnd s = some s1 ∧ P (-1) s1 := by
  unfold updatePhysics
  refine rows_desc_inv W H rnd P ?_ H (le_refl _) s hs
  intro y t hy ht
  obtain ⟨t1, h1, hP1⟩ := foldlM_inv (fun s1 x => stepCell W H rnd s1 x y) (P y)
    (fun x => 0 ≤ x ∧ x < (W : Int))
    (fun b a hb ha => by
      rcases stepCell_spec W H rnd b a y ((inBounds_iff W H a y).2 ⟨ha, hy⟩) with
        h | ⟨tx, ty, d, hm, hd, h⟩
      · exact ⟨b, h, hb⟩
      · exact ⟨_, h, hP b a y tx ty d ((inBounds_iff W H a y).2 ⟨ha, hy⟩) hm hd hb⟩)
    (loopVals 0 W) (fun a ha => (mem_loopVals 0 W a).1 ha) t ht
  exact ⟨t1, h1, hdown y t1 hP1⟩

/-- C12 (Sand moves at most one row per call): for every grid and every sequence of
tie-break outcomes, `updatePhysics` returns, and every cell `(a,b)` that is Sand
afterwards was Sand before the call, or one of the grid cells `(a,b-1)`,
`(a-1,b-1)`, `(a+1,b-1)` was. -/
theorem sand_comes_from_the_row_above (W H : Nat) (rnd : Nat → Nat) (s : World) :
    ∃ s1, updatePhysics W H rnd s = some s1 ∧
      ∀ a b : Int, s1.cells a b = Sand →
        s.cells a b = Sand ∨
        (inBounds W H a (b - 1) = true ∧ s.cells a (b - 1) = Sand) ∨
        (inBounds W H (a - 1) (b - 1) = true ∧ s.cells (a - 1) (b - 1) = Sand) ∨
        (inBounds W H (a + 1) (b - 1) = true ∧ s.cells (a + 1) (b - 1) = Sand) := by
  have hstep : ∀ (t : World) (x y tx ty : Int) (d : Nat), inBounds W H x y = true →
      Moves W H t.cells x y tx ty → (d = t.draws ∨ d = t.draws + 1) →
      ((∀ a b : Int, b ≤ y → t.cells a b = Sand → s.cells a b = Sand) ∧
        (∀ a b : Int, t.cells a b = Sand → SandFrom W H s.cells a b)) →
      ((∀ a b : Int, b ≤ y →
          (World.mk (swapCells t.cells x y tx ty) d).cells a b = Sand → s.cells a b = Sand) ∧
        (∀ a b : Int, (World.mk (swapCells t.cells x y tx ty) d).cells a b = Sand →
          SandFrom W H s.cells a b)) := by
    rintro t x y tx ty d hb ⟨_, hx, _, _, hk⟩ _ ⟨hA, hB⟩
    have htgt : t.cells tx ty ≠ Sand := by
      rcases hk with ⟨_, _, ⟨_, h | h⟩ | ⟨_, h, _⟩⟩ | ⟨_, h⟩ <;> rw [h] <;> decide
    constructor
    · intro a b hby hab
      change swapCells t.cells x y tx ty a b = Sand at hab
      unfold swapCells at hab
      by_cases e1 : a = x ∧ b = y
      · rw [if_pos e1] at hab
        exact absurd hab htgt
      · rw [if_neg e1] at hab
        by_cases e2 : a = tx ∧ b = ty
        · rw [if_pos e2] at hab
          rcases hk with ⟨_, hty, _⟩ | ⟨h, _⟩
          · omega
          · rw [h] at hab
            exact absurd hab (by decide)
        · rw [if_neg e2] at hab
          exact hA a b hby hab
    · intro a b hab
      change swapCells t.cells x y tx ty a b = Sand at hab
      unfold swapCells at hab
      by_cases e1 : a = x ∧ b = y
      · rw [if_pos e1] at hab
        exact absurd hab htgt
      · rw [if_neg e1] at hab
        by_cases e2 : a = tx ∧ b = ty
        · rw [if_pos e2] at hab
          obtain ⟨rfl, rfl⟩ := e2
          have hsrc := hA x y (le_refl y) hab
          rcases hk with ⟨_, hty, _⟩ | ⟨h, _⟩
          · have hy : b - 1 = y := by omega
            have hcase : x = a ∨ x = a - 1 ∨ x = a + 1 := by omega
            unfold SandFrom
            rw [hy]
            rcases hcase with h | h | h
            · rw [← h]
              exact Or.inr (Or.inl ⟨hb, hsrc⟩)
            · rw [← h]
              exact Or.inr (Or.inr (Or.inl ⟨hb, hsrc⟩))
            · rw [← h]
              exact Or.inr (Or.inr (Or.inr ⟨hb, hsrc⟩))
          · rw [h] at hab
            exact absurd hab (by decide)
        · rw [if_neg e2] at hab
          exact hB a b hab
  obtain ⟨s1, h1, _, hB⟩ := updatePhysics_desc_inv W H rnd
    (fun y t => (∀ a b : Int, b ≤ y → t.cells a b = Sand → s.cells a b = Sand) ∧
      (∀ a b : Int, t.cells a b = Sand → SandFrom W H s.cells a b))
    hstep (fun y t ht => ⟨fun a b hb => ht.1 a b (by omega), ht.2⟩) s
    ⟨fun _ _ _ h => h, fun _ _ h => Or.inl h⟩
  exact ⟨s1, h1, hB⟩

/-! ## The gravity potential -/

/-- Exchanging two different cells of the grid changes a sum over the grid only by
the two exchanged terms. -/
theorem gridSum_swap (W H : Nat) (F : CellType → Nat → Nat) (c : Cells) (i j k l : Nat)
    (hi : i < W) (hj : j < H) (hk : k < W) (hl : l < H) (hne : (i, j) ≠ (k, l)) :
    (∑ a in Finset.range W, ∑ b in Finset.range H,
        F (swapCells c (i : Int) (j : Int) (k : Int) (l : Int) (a : Int) (b : Int)) b) +
      F (c i j) j + F (c k l) l =
    (∑ a in Finset.range W, ∑ b in Finset.range H, F (c (a : Int) (b : Int)) b) +
      F (c i j) l + F (c k l) j := by
  rw [← Finset.sum_product', ← Finset.sum_product']
  have hp : ((i, j) : ℕ × ℕ) ∈ Finset.range W ×ˢ Finset.range H := by simp [hi, hj]
  have hq : ((k, l) : ℕ × ℕ) ∈ (Finset.range W ×ˢ Finset.range H).erase (i, j) := by
    simp [hk, hl, Ne.symm hne]
  rw [← Finset.add_sum_erase _ (fun q : ℕ × ℕ =>
      F (swapCells c (i : Int) (j : Int) (k : Int) (l : Int) (q.1 : Int) (q.2 : Int)) q.2) hp,
    ← Finset.add_sum_erase _ (fun q : ℕ × ℕ =>
      F (swapCells c (i : Int) (j : Int) (k : Int) (l : Int) (q.1 : Int) (q.2 : Int)) q.2) hq,
    ← Finset.add_sum_erase _ (fun q : ℕ × ℕ => F (c (q.1 : Int) (q.2 : Int)) q.2) hp,
    ← Finset.add_sum_erase _ (fun q : ℕ × ℕ => F (c (q.1 : Int) (q.2 : Int)) q.2) hq]
  have hrest : ∑ q in ((Finset.range W ×ˢ Finset.range H).erase (i, j)).erase (k, l),
      F (swapCells c (i : Int) (j : Int) (k : Int) (l : Int) (q.1 : Int) (q.2 : Int)) q.2 =
      ∑ q in ((Finset.range W ×ˢ Finset.range H).erase (i, j)).erase (k, l),
        F (c (q.1 : Int) (q.2 : Int)) q.2 := by
    apply Finset.sum_congr rfl
    rintro ⟨a, b⟩ hab
    have h1 : (a, b) ≠ (k, l) := (Finset.mem_erase.1 hab).1
    have h2 : (a, b) ≠ (i, j) := (Finset.mem_erase.1 (Finset.mem_erase.1 hab).2).1
    have e1 : ¬ ((a : Int) = (i : Int) ∧ (b : Int) = (j : Int)) := by
      rintro ⟨ha, hb⟩
      exact h2 (by rw [Nat.cast_inj.1 ha, Nat.cast_inj.1 hb])
    have e2 : ¬ ((a : Int) = (k : Int) ∧ (b : Int) = (l : Int)) := by
      rintro ⟨ha, hb⟩
      exact h1 (by rw [Nat.cast_inj.1 ha, Nat.cast_inj.1 hb])
    simp only [swapCells, e1, e2, if_false]
  have e3 : ¬ ((k : Int) = (i : Int) ∧ (l : Int) = (j : Int)) := by
    rintro ⟨ha, hb⟩
    exact hne (by rw [Nat.cast_inj.1 ha, Nat.cast_inj.1 hb])
  have hpv : swapCells c (i : Int) (j : Int) (k : Int) (l : Int) (i : Int) (j : Int) = c k l := by
    simp [swapCells]
  have hqv : swapCells c (i : Int) (j : Int) (k : Int) (l : Int) (k : Int) (l : Int) = c i j := by
    simp only [swapCells, e3, if_false, and_self, if_true]
  simp only [hrest, hpv, hqv]
  omega

/-- The sum of the row indices of one material under an exchange of two cells. -/
theorem sumRows_swap (W H : Nat) (m : CellType) (c : Cells) (x y tx ty : Int)
    (hb : inBounds W H x y = true) (hb2 : inBounds W H tx ty = true)
    (hne : tx ≠ x ∨ ty ≠ y) :
    sumRows W H m (swapCells c x y tx ty) + (if c x y = m then y.toNat else 0) +
        (if c tx ty = m then ty.toNat else 0) =
      sumRows W H m c + (if c x y = m then ty.toNat else 0) +
        (if c tx ty = m then y.toNat else 0) := by
  obtain ⟨⟨hx0, hx1⟩, hy0, hy1⟩ := (inBounds_iff W H x y).1 hb
  obtain ⟨⟨htx0, htx1⟩, hty0, hty1⟩ := (inBounds_iff W H tx ty).1 hb2
  obtain ⟨i, rfl⟩ := Int.eq_ofNat_of_zero_le hx0
  obtain ⟨j, rfl⟩ := Int.eq_ofNat_of_zero_le hy0
  obtain ⟨k, rfl⟩ := Int.eq_ofNat_of_zero_le htx0
  obtain ⟨l, rfl⟩ := Int.eq_ofNat_of_zero_le hty0
  have hij : ((i, j) : ℕ × ℕ) ≠ (k, l) := by
    intro h
    rcases hne with h1 | h1
    · exact h1 (by rw [(Prod.mk.inj h).1])
    · exact h1 (by rw [(Prod.mk.inj h).2])
  have key := gridSum_swap W H (fun v b => if v = m then b else 0) c i j k l
    (by omega) (by omega) (by omega) (by omega) hij
  simp only [Int.toNat_ofNat]
  exact key

/-- A move does not lower the gravity potential. -/
theorem potential_swap (W H : Nat) (c : Cells) (x y tx ty : Int)
    (hb : inBounds W H x y = true) (hm : Moves W H c x y tx ty) :
    potential W H c ≤ potential W H (swapCells c x y tx ty) := by
  obtain ⟨hb2, _, hy, hne, hk⟩ := hm
  have hS := sumRows_swap W H Sand c x y tx ty hb hb2 hne
  have hWt := sumRows_swap W H Water c x y tx ty hb hb2 hne
  have hy0 := ((inBounds_iff W H x y).1 hb).2.1
  have hty0 := ((inBounds_iff W H tx ty).1 hb2).2.1
  unfold potential
  rcases hk with ⟨h1, hty, ⟨_, h2 | h2⟩ | ⟨_, h2, _⟩⟩ | ⟨h1, h2⟩
  · simp only [h1, h2, reduceCtorEq, if_true, if_false] at hS hWt
    omega
  · simp only [h1, h2, reduceCtorEq, if_true, if_false] at hS hWt
    omega
  · simp only [h1, h2, reduceCtorEq, if_true, if_false] at hS hWt
    omega
  · simp only [h1, h2, reduceCtorEq, if_true, if_false] at hS hWt
    omega

/-- C15 (the gravity potential is monotone): for every grid and every sequence of
tie-break outcomes, `updatePhysics` returns and the quantity
`2 * (sum of y over Sand cells) + (sum of y over Water cells)` after the call is at
least its value before the call. -/
theorem updatePhysics_potential_mono (W H : Nat) (rnd : Nat → Nat) (s : World) :
    ∃ s1, updatePhysics W H rnd s = some s1 ∧
      2 * sumRows W H Sand s.cells + sumRows W H Water s.cells ≤
        2 * sumRows W H Sand s1.cells + sumRows W H Water s1.cells := by
  exact updatePhysics_inv W H rnd
    (fun t => potential W H s.cells ≤ potential W H t.cells)
    (fun t x y tx ty d hb hm _ ht =>
      le_trans ht (potential_swap W H t.cells x y tx ty hb hm)) s (le_refl _)

/-! ## Passes with a single move -/

/-- Sand in the bottom row is left alone. -/
theorem stepCell_sand_floor (W H : Nat) (rnd : Nat → Nat) (s : World) (x y : Int)
    (hb : inBounds W H x y = true) (hc : s.cells x y = Sand) (hy : ¬ (y + 1 < (H : Int))) :
    stepCell W H rnd s x y = some s := by
  unfold stepCell
  simp only [readCell, hb, if_true, Option.bind_eq_bind, Option.some_bind, Option.pure_def, hc,
    hy, if_false]

/-- Water in the bottom row with no Empty cell beside it is left alone. -/
theorem stepCell_water_stuck (W H : Nat) (rnd : Nat → Nat) (s : World) (x y : Int)
    (hb : inBounds W H x y = true) (hc : s.cells x y = Water) (hy : ¬ (y + 1 < (H : Int)))
    (hl : x - 1 ≥ 0 → s.cells (x - 1) y ≠ CellType.Empty)
    (hr : x + 1 < (W : Int) → s.cells (x + 1) y ≠ CellType.Empty) :
    stepCell W H rnd s x y = some s := by
  have hxy := (inBounds_iff W H x y).1 hb
  unfold stepCell
  simp only [readCell, hb, if_true, Option.bind_eq_bind, Option.some_bind, Option.pure_def, hc,
    reduceCtorEq, if_false]
  have hlh : decide (x - 1 ≥ 0) = true → inBounds W H (x - 1) y = true := by
    intro h
    have h1 := of_decide_eq_true h
    exact (inBounds_iff W H (x - 1) y).2 ⟨⟨by omega, by omega⟩, hxy.2⟩
  have hrh : decide (x + 1 < (W : Int)) = true → inBounds W H (x + 1) y = true := by
    intro h
    have h1 := of_decide_eq_true h
    exact (inBounds_iff W H (x + 1) y).2 ⟨⟨by omega, by omega⟩, hxy.2⟩
  have hdy : decide (y + 1 < (H : Int)) = false := decide_eq_false hy
  rw [andAlso_isEmptyAt W H s.cells (x - 1) y _ hlh, andAlso_isEmptyAt W H s.cells (x + 1) y _ hrh]
  have hLH : (decide (x - 1 ≥ 0) && decide (s.cells (x - 1) y = CellType.Empty)) = false := by
    by_cases h : x - 1 ≥ 0
    · simp [hl h]
    · simp [h]
  have hRH : (decide (x + 1 < (W : Int)) && decide (s.cells (x + 1) y = CellType.Empty)) =
      false := by
    by_cases h : x + 1 < (W : Int)
    · simp [hr h]
    · simp [h]
  simp only [hdy, Bool.and_false, andAlso, Bool.false_eq_true, if_false, Option.some_bind, hLH,
    hRH, Bool.and_self]

/-- Sand above Water of the grid changes places with it, without a draw. -/
theorem stepCell_sand_swap (W H : Nat) (rnd : Nat → Nat) (s : World) (x y : Int)
    (hb : inBounds W H x y = true) (hc : s.cells x y = Sand) (hy : y + 1 < (H : Int))
    (hw : s.cells x (y + 1) = Water) :
    stepCell W H rnd s x y = some (World.mk (swapCells s.cells x y x (y + 1)) s.draws) := by
  have hxy := (inBounds_iff W H x y).1 hb
  have hb1 : inBounds W H x (y + 1) = true :=
    (inBounds_iff W H x (y + 1)).2 ⟨hxy.1, by omega, hy⟩
  unfold stepCell
  simp only [readCell, hb, if_true, Option.bind_eq_bind, Option.some_bind, Option.pure_def,
    hc, hy, hb1, hw, reduceCtorEq, if_false]
  exact move_ok W H s.cells x y x (y + 1) Sand Water s.draws hb hb1 hc hw

/-- Sand on Sand with both cells diagonally below it Empty takes one draw and slips
to the right when the draw is 0 and to the left otherwise. -/
theorem stepCell_sand_slip (W H : Nat) (rnd : Nat → Nat) (s : World) (x y : Int)
    (hb : inBounds W H x y = true) (hc : s.cells x y = Sand) (hy : y + 1 < (H : Int))
    (hbelow : s.cells x (y + 1) = Sand)
    (hx0 : x - 1 ≥ 0) (hl : s.cells (x - 1) (y + 1) = CellType.Empty)
    (hx1 : x + 1 < (W : Int)) (hr : s.cells (x + 1) (y + 1) = CellType.Empty) :
    stepCell W H rnd s x y =
      some (World.mk (swapCells s.cells x y (if rnd s.draws % 2 = 0 then x + 1 else x - 1) (y + 1))
        (s.draws + 1)) := by
  have hxy := (inBounds_iff W H x y).1 hb
  have hb1 : inBounds W H x (y + 1) = true :=
    (inBounds_iff W H x (y + 1)).2 ⟨hxy.1, by omega, hy⟩
  have hbl : inBounds W H (x - 1) (y + 1) = true :=
    (inBounds_iff W H (x - 1) (y + 1)).2 ⟨⟨by omega, by omega⟩, by omega, hy⟩
  have hbr : inBounds W H (x + 1) (y + 1) = true :=
    (inBounds_iff W H (x + 1) (y + 1)).2 ⟨⟨by omega, by omega⟩, by omega, hy⟩
  unfold stepCell
  simp only [readCell, hb, if_true, Option.bind_eq_bind, Option.some_bind, Option.pure_def,
    hc, hy, hb1, hbelow, reduceCtorEq, if_false, ne_eq, not_false_eq_true]
  rw [andAlso_isEmptyAt W H s.cells (x - 1) (y + 1) _ (fun _ => hbl),
    andAlso_isEmptyAt W H s.cells (x + 1) (y + 1) _ (fun _ => hbr)]
  simp only [hx0, hl, hx1, hr, decide_True, Bool.and_self, Option.some_bind, if_true]
  by_cases hd : rnd s.draws % 2 = 0
  · simp only [hd, if_true]
    exact move_ok W H s.cells x y (x + 1) (y + 1) Sand CellType.Empty (s.draws + 1) hb hbr hc hr
  · simp only [hd, if_false]
    exact move_ok W H s.cells x y (x - 1) (y + 1) Sand CellType.Empty (s.draws + 1) hb hbl hc hl

/-- The pass of `updatePhysics` when the loop body changes nothing before the cell
`(x,y)` is reached and nothing after it: the pass is the loop body at `(x,y)`. -/
theorem updatePhysics_one_move (W H : Nat) (rnd : Nat → Nat) (s s1 : World) (x y : Int)
    (hb : inBounds W H x y = true)
    (hs : ∀ a b : Int, inBounds W H a b = true → (y < b ∨ (b = y ∧ a < x)) →
      stepCell W H rnd s a b = some s)
    (hstep : stepCell W H rnd s x y = some s1)
    (hs1 : ∀ a b : Int, inBounds W H a b = true → (b < y ∨ (b = y ∧ x < a)) →
      stepCell W H rnd s1 a b = some s1) :
    updatePhysics W H rnd s = some s1 := by
  obtain ⟨⟨hx0, hx1⟩, hy0, hy1⟩ := (inBounds_iff W H x y).1 hb
  have hrowfix : ∀ (t : World) (b : Int), (0 ≤ b ∧ b < (H : Int)) →
      (∀ a : Int, (0 ≤ a ∧ a < (W : Int)) → stepCell W H rnd t a b = some t) →
      updateRow W H rnd t b = some t := by
    intro t b _ h
    unfold updateRow
    exact foldlM_fixed _ t _ (fun a ha => h a ((mem_loopVals 0 W a).1 ha))
  have hrow : updateRow W H rnd s y = some s1 := by
    unfold updateRow
    rw [loopVals_split 0 W x hx0 hx1]
    rw [foldlM_split (fun s2 a => stepCell W H rnd s2 a y) (loopVals 0 x) (loopVals (x + 1) W) x
      s s s1 ?_ hstep]
    · refine foldlM_fixed _ s1 _ (fun a ha => ?_)
      have ha1 := (mem_loopVals (x + 1) W a).1 ha
      exact hs1 a y ((inBounds_iff W H a y).2 ⟨⟨by omega, by omega⟩, hy0, hy1⟩)
        (Or.inr ⟨rfl, by omega⟩)
    · refine foldlM_fixed _ s _ (fun a ha => ?_)
      have ha1 := (mem_loopVals 0 x a).1 ha
      exact hs a y ((inBounds_iff W H a y).2 ⟨⟨by omega, by omega⟩, hy0, hy1⟩)
        (Or.inr ⟨rfl, by omega⟩)
  unfold updatePhysics
  rw [loopVals_split 0 H y hy0 hy1, List.reverse_append, List.reverse_cons, List.append_assoc,
    List.singleton_append]
  rw [foldlM_split (updateRow W H rnd) (loopVals (y + 1) H).reverse (loopVals 0 y).reverse y
    s s s1 ?_ hrow]
  · refine foldlM_fixed _ s1 _ (fun b hb1 => ?_)
    have hb2 := (mem_loopVals 0 y b).1 (List.mem_reverse.1 hb1)
    exact hrowfix s1 b ⟨by omega, by omega⟩ (fun a ha =>
      hs1 a b ((inBounds_iff W H a b).2 ⟨ha, by omega, by omega⟩) (Or.inl hb2.2))
  · refine foldlM_fixed _ s _ (fun b hb1 => ?_)
    have hb2 := (mem_loopVals (y + 1) H b).1 (List.mem_reverse.1 hb1)
    exact hrowfix s b ⟨by omega, by omega⟩ (fun a ha =>
      hs a b ((inBounds_iff W H a b).2 ⟨ha, by omega, by omega⟩) (Or.inl (by omega)))

/-- The pass over a grid holding only one grain of Sand on another in the bottom
row, given the slip the loop body makes at the upper grain. -/
theorem slip_pass_to (W H : Nat) (rnd : Nat → Nat) (s : World) (x y tx : Int)
    (hy0 : 0 ≤ y) (hy : y + 2 = (H : Int)) (hx : 0 < x ∧ x + 1 < (W : Int))
    (hgrid : ∀ a b : Int, inBounds W H a b = true →
      s.cells a b = if a = x ∧ (b = y ∨ b = y + 1) then Sand else CellType.Empty)
    (htx : tx = x + 1 ∨ tx = x - 1)
    (hstep : stepCell W H rnd s x y =
      some (World.mk (swapCells s.cells x y tx (y + 1)) (s.draws + 1))) :
    updatePhysics W H rnd s = some (World.mk (swapCells s.cells x y tx (y + 1)) (s.draws + 1)) ∧
      ∀ a b : Int, inBounds W H a b = true →
        swapCells s.cells x y tx (y + 1) a b =
          if b = y + 1 ∧ (a = x ∨ a = tx) then Sand else CellType.Empty := by
  have hb : inBounds W H x y = true := (inBounds_iff W H x y).2 ⟨⟨by omega, by omega⟩, hy0, by omega⟩
  have hbt : inBounds W H tx (y + 1) = true :=
    (inBounds_iff W H tx (y + 1)).2 ⟨⟨by omega, by omega⟩, by omega, by omega⟩
  have hc : s.cells x y = Sand := by
    rw [hgrid x y hb]
    simp
  have ht : s.cells tx (y + 1) = CellType.Empty := by
    rw [hgrid tx (y + 1) hbt, if_neg]
    rintro ⟨h, _⟩
    omega
  have hnew : ∀ a b : Int, inBounds W H a b = true →
      swapCells s.cells x y tx (y + 1) a b =
        if b = y + 1 ∧ (a = x ∨ a = tx) then Sand else CellType.Empty := by
    intro a b hab
    have hg := hgrid a b hab
    unfold swapCells
    by_cases e1 : a = x ∧ b = y
    · rw [if_pos e1, ht, if_neg]
      rintro ⟨h, _⟩
      omega
    · rw [if_neg e1]
      by_cases e2 : a = tx ∧ b = y + 1
      · rw [if_pos e2, hc, if_pos ⟨e2.2, Or.inr e2.1⟩]
      · rw [if_neg e2, hg]
        split_ifs <;> first | rfl | (exfalso; omega)
  refine ⟨?_, hnew⟩
  refine updatePhysics_one_move W H rnd s _ x y hb ?_ hstep ?_
  · intro a b hab hpos
    have hab1 := (inBounds_iff W H a b).1 hab
    by_cases hax : a = x ∧ b = y + 1
    · refine stepCell_sand_floor W H rnd s a b hab ?_ (by omega)
      rw [hgrid a b hab, if_pos ⟨hax.1, Or.inr hax.2⟩]
    · refine stepCell_inert W H rnd s a b hab (Or.inl ?_)
      rw [hgrid a b hab, if_neg]
      rintro ⟨h1, h2⟩
      omega
  · intro a b hab hpos
    refine stepCell_inert W H rnd _ a b hab (Or.inl ?_)
    show swapCells s.cells x y tx (y + 1) a b = CellType.Empty
    rw [hnew a b hab, if_neg]
    rintro ⟨h1, _⟩
    omega

/-- One call of `updatePhysics` on a grid holding only one grain of Sand on another
in the bottom row, away from the side walls. -/
theorem slip_pass (W H : Nat) (rnd : Nat → Nat) (s : World) (x y : Int)
    (hy0 : 0 ≤ y) (hy : y + 2 = (H : Int)) (hx : 0 < x ∧ x + 1 < (W : Int))
    (hgrid : ∀ a b : Int, inBounds W H a b = true →
      s.cells a b = if a = x ∧ (b = y ∨ b = y + 1) then Sand else CellType.Empty) :
    ∃ s1, updatePhysics W H rnd s = some s1 ∧ s1.draws = s.draws + 1 ∧
      ∀ a b : Int, inBounds W H a b = true →
        s1.cells a b =
          if b = y + 1 ∧ (a = x ∨ a = (if rnd s.draws % 2 = 0 then x + 1 else x - 1))
            then Sand else CellType.Empty := by
  have hb : inBounds W H x y = true := (inBounds_iff W H x y).2 ⟨⟨by omega, by omega⟩, hy0, by omega⟩
  have hcell : ∀ a b : Int, (0 ≤ a ∧ a < (W : Int)) → (0 ≤ b ∧ b < (H : Int)) →
      s.cells a b = if a = x ∧ (b = y ∨ b = y + 1) then Sand else CellType.Empty :=
    fun a b ha hb1 => hgrid a b ((inBounds_iff W H a b).2 ⟨ha, hb1⟩)
  have hc : s.cells x y = Sand := by
    rw [hcell x y ⟨by omega, by omega⟩ ⟨by omega, by omega⟩]
    simp
  have hbelow : s.cells x (y + 1) = Sand := by
    rw [hcell x (y + 1) ⟨by omega, by omega⟩ ⟨by omega, by omega⟩]
    simp
  have hl : s.cells (x - 1) (y + 1) = CellType.Empty := by
    rw [hcell (x - 1) (y + 1) ⟨by omega, by omega⟩ ⟨by omega, by omega⟩, if_neg]
    rintro ⟨h, _⟩
    omega
  have hr : s.cells (x + 1) (y + 1) = CellType.Empty := by
    rw [hcell (x + 1) (y + 1) ⟨by omega, by omega⟩ ⟨by omega, by omega⟩, if_neg]
    rintro ⟨h, _⟩
    omega
  have hstep := stepCell_sand_slip W H rnd s x y hb hc (by omega) hbelow (by omega) hl
    (by omega) hr
  have htx : (if rnd s.draws % 2 = 0 then x + 1 else x - 1) = x + 1 ∨
      (if rnd s.draws % 2 = 0 then x + 1 else x - 1) = x - 1 := by
    split_ifs
    · exact Or.inl rfl
    · exact Or.inr rfl
  obtain ⟨h1, h2⟩ := slip_pass_to W H rnd s x y _ hy0 hy hx hgrid htx hstep
  exact ⟨_, h1, rfl, h2⟩

/-- C11 (tie-break fairness): in a grid whose only non-Empty cells are Sand at
`(x,y)` resting on Sand at `(x,y+1)` in the bottom row, with `0 < x < W-1`, one call
of `updatePhysics` returns after exactly one draw; the upper grain is at `(x+1,y+1)`
when the draw is 0 and at `(x-1,y+1)` when it is 1, and nothing else changes.  Of
the two values of the draw exactly one sends the grain to the right and exactly one
to the left, so a uniform draw gives each side probability 1/2. -/
theorem tie_break_fair (W H : Nat) (rnd : Nat → Nat) (s : World) (x y : Int)
    (hy0 : 0 ≤ y) (hy : y + 2 = (H : Int)) (hx : 0 < x ∧ x + 1 < (W : Int))
    (hgrid : ∀ a b : Int, inBounds W H a b = true →
      s.cells a b = if a = x ∧ (b = y ∨ b = y + 1) then Sand else CellType.Empty) :
    (∃ s1, updatePhysics W H rnd s = some s1 ∧ s1.draws = s.draws + 1 ∧
      ∀ a b : Int, inBounds W H a b = true →
        s1.cells a b =
          if b = y + 1 ∧ (a = x ∨ a = (if rnd s.draws % 2 = 0 then x + 1 else x - 1))
            then Sand else CellType.Empty) ∧
    (Finset.univ.filter (fun v : Fin 2 =>
      (updatePhysics W H (fun _ => (v : Nat)) s).map (fun t => t.cells (x + 1) (y + 1)) =
        some Sand)).card = 1 ∧
    (Finset.univ.filter (fun v : Fin 2 =>
      (updatePhysics W H (fun _ => (v : Nat)) s).map (fun t => t.cells (x - 1) (y + 1)) =
        some Sand)).card = 1 := by
  have hbr : inBounds W H (x + 1) (y + 1) = true :=
    (inBounds_iff W H (x + 1) (y + 1)).2 ⟨⟨by omega, by omega⟩, by omega, by omega⟩
  have hbl : inBounds W H (x - 1) (y + 1) = true :=
    (inBounds_iff W H (x - 1) (y + 1)).2 ⟨⟨by omega, by omega⟩, by omega, by omega⟩
  have keyR : ∀ v : Fin 2,
      ((updatePhysics W H (fun _ => (v : Nat)) s).map (fun t => t.cells (x + 1) (y + 1)) =
        some Sand) ↔ v = 0 := by
    intro v
    obtain ⟨s1, h1, _, h2⟩ := slip_pass W H (fun _ => (v : Nat)) s x y hy0 hy hx hgrid
    rw [h1, Option.map_some', Option.some.injEq, h2 (x + 1) (y + 1) hbr]
    fin_cases v
    · simp
    · simp
      omega
  have keyL : ∀ v : Fin 2,
      ((updatePhysics W H (fun _ => (v : Nat)) s).map (fun t => t.cells (x - 1) (y + 1)) =
        some Sand) ↔ v = 1 := by
    intro v
    obtain ⟨s1, h1, _, h2⟩ := slip_pass W H (fun _ => (v : Nat)) s x y hy0 hy hx hgrid
    rw [h1, Option.map_some', Option.some.injEq, h2 (x - 1) (y + 1) hbl]
    fin_cases v
    · simp
      omega
    · simp
  refine ⟨slip_pass W H rnd s x y hy0 hy hx hgrid, ?_, ?_⟩
  · have e : Finset.univ.filter (fun v : Fin 2 =>
        (updatePhysics W H (fun _ => (v : Nat)) s).map (fun t => t.cells (x + 1) (y + 1)) =
          some Sand) = {0} := by
      ext v
      simp only [Finset.mem_filter, Finset.mem_univ, true_and, Finset.mem_singleton]
      exact keyR v
    rw [e]
    rfl
  · have e : Finset.univ.filter (fun v : Fin 2 =>
        (updatePhysics W H (fun _ => (v : Nat)) s).map (fun t => t.cells (x - 1) (y + 1)) =
          some Sand) = {1} := by
      ext v
      simp only [Finset.mem_filter, Finset.mem_univ, true_and, Finset.mem_singleton]
      exact keyL v
    rw [e]
    rfl

/-- Witness of C11: two grains stacked in the middle column of a 3 x 2 grid. -/
theorem tie_break_fair_witness :
    (∃ s1, updatePhysics 3 2 (fun _ => 0)
        (World.mk (setCell (setCell emptyCells 1 0 Sand) 1 1 Sand) 0) = some s1 ∧
      s1.draws = (World.mk (setCell (setCell emptyCells 1 0 Sand) 1 1 Sand) 0).draws + 1 ∧
      ∀ a b : Int, inBounds 3 2 a b = true →
        s1.cells a b =
          if b = 0 + 1 ∧ (a = 1 ∨ a = (if (fun _ => 0 : Nat → Nat)
              (World.mk (setCell (setCell emptyCells 1 0 Sand) 1 1 Sand) 0).draws % 2 = 0
            then 1 + 1 else 1 - 1))
            then Sand else CellType.Empty) ∧
    (Finset.univ.filter (fun v : Fin 2 =>
      (updatePhysics 3 2 (fun _ => (v : Nat))
        (World.mk (setCell (setCell emptyCells 1 0 Sand) 1 1 Sand) 0)).map
          (fun t => t.cells (1 + 1) (0 + 1)) = some Sand)).card = 1 ∧
    (Finset.univ.filter (fun v : Fin 2 =>
      (updatePhysics 3 2 (fun _ => (v : Nat))
        (World.mk (setCell (setCell emptyCells 1 0 Sand) 1 1 Sand) 0)).map
          (fun t => t.cells (1 - 1) (0 + 1)) = some Sand)).card = 1 :=
  tie_break_fair 3 2 (fun _ => 0) (World.mk (setCell (setCell emptyCells 1 0 Sand) 1 1 Sand) 0)
    1 0 (by decide) (by decide) (by decide)
    (by
      intro a b _
      simp only [setCell, emptyCells]
      split_ifs <;> first | rfl | (exfalso; omega))

/-- C13 (Sand displaces trapped Water upward): for `0 < x < W-1`, in a grid whose
only non-Empty cells are Sand at `(x,H-2)`, Water at `(x,H-1)` and Stone at
`(x-1,H-1)` and `(x+1,H-1)`, one call of `updatePhysics` returns without a draw the
grid with Sand at `(x,H-1)`, Water at `(x,H-2)`, the two Stone cells unchanged and
every other cell Empty.  Here `y` is the row `H-2`. -/
theorem sand_displaces_trapped_water (W H : Nat) (rnd : Nat → Nat) (s : World) (x y : Int)
    (hy0 : 0 ≤ y) (hy : y + 2 = (H : Int)) (hx : 0 < x ∧ x + 1 < (W : Int))
    (hgrid : ∀ a b : Int, inBounds W H a b = true →
      s.cells a b = if a = x ∧ b = y then Sand
        else if a = x ∧ b = y + 1 then Water
        else if (a = x - 1 ∨ a = x + 1) ∧ b = y + 1 then Stone else CellType.Empty) :
    ∃ s1, updatePhysics W H rnd s = some s1 ∧ s1.draws = s.draws ∧
      ∀ a b : Int, inBounds W H a b = true →
        s1.cells a b = if a = x ∧ b = y then Water
          else if a = x ∧ b = y + 1 then Sand
          else if (a = x - 1 ∨ a = x + 1) ∧ b = y + 1 then Stone else CellType.Empty := by
  have hb : inBounds W H x y = true := (inBounds_iff W H x y).2 ⟨⟨by omega, by omega⟩, hy0, by omega⟩
  have hb1 : inBounds W H x (y + 1) = true :=
    (inBounds_iff W H x (y + 1)).2 ⟨⟨by omega, by omega⟩, by omega, by omega⟩
  have hcell : ∀ a b : Int, (0 ≤ a ∧ a < (W : Int)) → (0 ≤ b ∧ b < (H : Int)) →
      s.cells a b = if a = x ∧ b = y then Sand
        else if a = x ∧ b = y + 1 then Water
        else if (a = x - 1 ∨ a = x + 1) ∧ b = y + 1 then Stone else CellType.Empty :=
    fun a b ha hb2 => hgrid a b ((inBounds_iff W H a b).2 ⟨ha, hb2⟩)
  have hc : s.cells x y = Sand := by
    rw [hgrid x y hb]
    simp
  have hw : s.cells x (y + 1) = Water := by
    rw [hgrid x (y + 1) hb1]
    simp
  have hsl : s.cells (x - 1) (y + 1) = Stone := by
    rw [hcell (x - 1) (y + 1) ⟨by omega, by omega⟩ ⟨by omega, by omega⟩]
    split_ifs <;> first | rfl | (exfalso; omega)
  have hsr : s.cells (x + 1) (y + 1) = Stone := by
    rw [hcell (x + 1) (y + 1) ⟨by omega, by omega⟩ ⟨by omega, by omega⟩]
    split_ifs <;> first | rfl | (exfalso; omega)
  have hnew : ∀ a b : Int, inBounds W H a b = true →
      swapCells s.cells x y x (y + 1) a b = if a = x ∧ b = y then Water
        else if a = x ∧ b = y + 1 then Sand
        else if (a = x - 1 ∨ a = x + 1) ∧ b = y + 1 then Stone else CellType.Empty := by
    intro a b hab
    have hg := hgrid a b hab
    unfold swapCells
    by_cases e1 : a = x ∧ b = y
    · rw [if_pos e1, if_pos e1, hw]
    · rw [if_neg e1, if_neg e1]
      by_cases e2 : a = x ∧ b = y + 1
      · rw [if_pos e2, if_pos e2, hc]
      · rw [if_neg e2, if_neg e2, hg, if_neg e1, if_neg e2]
  refine ⟨World.mk (swapCells s.cells x y x (y + 1)) s.draws, ?_, rfl, hnew⟩
  refine updatePhysics_one_move W H rnd s _ x y hb ?_
    (stepCell_sand_swap W H rnd s x y hb hc (by omega) hw) ?_
  · intro a b hab hpos
    have hab1 := (inBounds_iff W H a b).1 hab
    by_cases hax : a = x ∧ b = y + 1
    · obtain ⟨rfl, rfl⟩ := hax
      exact stepCell_water_stuck W H rnd s a (y + 1) hab hw (by omega)
        (fun _ => by rw [hsl]; decide) (fun _ => by rw [hsr]; decide)
    · have hv : s.cells a b = CellType.Empty ∨ s.cells a b = Stone := by
        rw [hgrid a b hab]
        split_ifs <;> first | exact Or.inl rfl | exact Or.inr rfl | (exfalso; omega)
      exact stepCell_inert W H rnd s a b hab hv
  · intro a b hab hpos
    refine stepCell_inert W H rnd _ a b hab (Or.inl ?_)
    show swapCells s.cells x y x (y + 1) a b = CellType.Empty
    rw [hnew a b hab]
    split_ifs <;> first | rfl | (exfalso; omega)

/-- Witness of C13: the middle column of a 3 x 2 grid. -/
theorem sand_displaces_trapped_water_witness :
    ∃ s1, updatePhysics 3 2 (fun _ => 0)
        (World.mk (setCell (setCell (setCell (setCell emptyCells 1 0 Sand) 1 1 Water)
          0 1 Stone) 2 1 Stone) 0) = some s1 ∧
      s1.draws = (World.mk (setCell (setCell (setCell (setCell emptyCells 1 0 Sand) 1 1 Water)
          0 1 Stone) 2 1 Stone) 0).draws ∧
      ∀ a b : Int, inBounds 3 2 a b = true →
        s1.cells a b = if a = 1 ∧ b = 0 then Water
          else if a = 1 ∧ b = 0 + 1 then Sand
          else if (a = 1 - 1 ∨ a = 1 + 1) ∧ b = 0 + 1 then Stone else CellType.Empty :=
  sand_displaces_trapped_water 3 2 (fun _ => 0)
    (World.mk (setCell (setCell (setCell (setCell emptyCells 1 0 Sand) 1 1 Water)
      0 1 Stone) 2 1 Stone) 0) 1 0 (by decide) (by decide) (by decide)
    (by
      intro a b _
      simp only [setCell, emptyCells]
      split_ifs <;> first | rfl | (exfalso; omega))

/-! ## The square written by placePixels -/

/-- For a positive `size` that is a Go `int`, a centre that is a Go `int` and a
grid of dimensions at most 2^62, `placePixels` returns, and a cell of the grid holds
`m` afterwards if it lies in columns `cx-half .. cx+half-1` and rows
`cy-half .. cy+half-1`, where `half = size / 2`, and its previous value otherwise. -/
theorem placePixels_window (W H : Nat) (c : Cells) (cx cy size : Int) (m : CellType)
    (hW : W ≤ 4611686018427387904) (hH : H ≤ 4611686018427387904)
    (hcx : isInt64 cx) (hcy : isInt64 cy) (hs1 : 1 ≤ size) (hs : isInt64 size) :
    ∃ c1, placePixels W H c cx cy size m = some c1 ∧
      ∀ tx ty : Int, inBounds W H tx ty = true →
        c1 tx ty = if cx - Int.tdiv size 2 ≤ tx ∧ tx < cx + Int.tdiv size 2 ∧
            cy - Int.tdiv size 2 ≤ ty ∧ ty < cy + Int.tdiv size 2 then m else c tx ty := by
  obtain ⟨c1, h1, hc1⟩ := placePixels_spec W H c cx cy size m
  refine ⟨c1, h1, ?_⟩
  intro tx ty hb
  obtain ⟨⟨hx0, hx1⟩, hy0, hy1⟩ := (inBounds_iff W H tx ty).1 hb
  have hhalf : Int.tdiv size 2 = size / 2 := Int.tdiv_eq_ediv (by omega) (by decide)
  rw [hhalf] at hc1 ⊢
  unfold isInt64 at hcx hcy hs
  have hWi : (W : Int) ≤ 4611686018427387904 := by exact_mod_cast hW
  have hHi : (H : Int) ≤ 4611686018427387904 := by exact_mod_cast hH
  by_cases hwin : cx - size / 2 ≤ tx ∧ tx < cx + size / 2 ∧ cy - size / 2 ≤ ty ∧
      ty < cy + size / 2
  · rw [if_pos hwin]
    refine (hc1 tx ty).1 ⟨tx - cx, ty - cy, by omega, by omega, hb, ?_, ?_⟩
    · unfold wrap64
      omega
    · unfold wrap64
      omega
  · rw [if_neg hwin]
    refine (hc1 tx ty).2 ?_
    rintro ⟨x, y, hx, hy, _, hxe, hye⟩
    unfold wrap64 at hxe hye
    apply hwin
    omega

/-- The number of columns `x < W` with `lo <= x < hi`, for `0 <= lo <= hi <= W`. -/
theorem count_interval (W : Nat) (lo hi : Int) (h0 : 0 ≤ lo) (h1 : lo ≤ hi)
    (h2 : hi ≤ (W : Int)) :
    (∑ x in Finset.range W, if lo ≤ (x : Int) ∧ (x : Int) < hi then 1 else 0) =
      (hi - lo).toNat := by
  rw [← Finset.card_filter]
  have e : Finset.filter (fun x : ℕ => lo ≤ (x : Int) ∧ (x : Int) < hi) (Finset.range W) =
      Finset.Ico lo.toNat hi.toNat := by
    ext x
    simp only [Finset.mem_filter, Finset.mem_range, Finset.mem_Ico]
    omega
  rw [e, Nat.card_Ico]
  omega

/-- The number of non-Empty cells of a grid that holds a non-Empty material on a
rectangle inside the grid and Empty elsewhere. -/
theorem countNonEmpty_window (W H : Nat) (c1 : Cells) (m : CellType)
    (hm : m ≠ CellType.Empty) (x0 x1 y0 y1 : Int)
    (hx : 0 ≤ x0 ∧ x0 ≤ x1 ∧ x1 ≤ (W : Int)) (hy : 0 ≤ y0 ∧ y0 ≤ y1 ∧ y1 ≤ (H : Int))
    (hc : ∀ a b : Int, inBounds W H a b = true →
      c1 a b = if x0 ≤ a ∧ a < x1 ∧ y0 ≤ b ∧ b < y1 then m else CellType.Empty) :
    countNonEmpty W H c1 = (x1 - x0).toNat * (y1 - y0).toNat := by
  unfold countNonEmpty countWhere
  have hcell : ∀ a ∈ Finset.range W, ∀ b ∈ Finset.range H,
      (if decide (c1 (a : Int) (b : Int) ≠ CellType.Empty) = true then 1 else 0) =
        (if x0 ≤ (a : Int) ∧ (a : Int) < x1 then 1 else 0) *
          (if y0 ≤ (b : Int) ∧ (b : Int) < y1 then 1 else 0) := by
    intro a ha b hb
    have ha1 := Finset.mem_range.1 ha
    have hb1 := Finset.mem_range.1 hb
    rw [hc a b ((inBounds_iff W H a b).2 ⟨⟨by omega, by omega⟩, by omega, by omega⟩)]
    by_cases hA : x0 ≤ (a : Int) ∧ (a : Int) < x1
    · by_cases hB : y0 ≤ (b : Int) ∧ (b : Int) < y1
      · have hAB : x0 ≤ (a : Int) ∧ (a : Int) < x1 ∧ y0 ≤ (b : Int) ∧ (b : Int) < y1 :=
          ⟨hA.1, hA.2, hB.1, hB.2⟩
        simp [hA, hB, hAB, hm]
      · have hAB : ¬ (x0 ≤ (a : Int) ∧ (a : Int) < x1 ∧ y0 ≤ (b : Int) ∧ (b : Int) < y1) :=
          fun h => hB ⟨h.2.2.1, h.2.2.2⟩
        simp [hB, hAB]
    · have hAB : ¬ (x0 ≤ (a : Int) ∧ (a : Int) < x1 ∧ y0 ≤ (b : Int) ∧ (b : Int) < y1) :=
        fun h => hA ⟨h.1, h.2.1⟩
      simp [hA, hAB]
  rw [Finset.sum_congr rfl (fun a ha => Finset.sum_congr rfl (fun b hb => hcell a ha b hb))]
  simp only [← Finset.mul_sum]
  rw [← Finset.sum_mul, count_interval W x0 x1 hx.1 hx.2.1 hx.2.2,
    count_interval H y0 y1 hy.1 hy.2.1 hy.2.2]

/-- C6 as stated fails at `size = 1`: on the all-Empty grid of the program,
`placePixels(5,5,1,Sand)` returns a grid in which the number of cells holding Sand
is not `1 * 1` and `(5,5)` does not hold Sand. -/
theorem placePixels_size_one_counterexample :
    ∃ c1, placePixels CellsX CellsY emptyCells 5 5 1 Sand = some c1 ∧
      countNonEmpty CellsX CellsY c1 ≠ 1 * 1 ∧ c1 5 5 ≠ Sand := by
  obtain ⟨c1, h1, h2, h3⟩ := placePixels_size_one_writes_nothing CellsX CellsY 5 5
  refine ⟨c1, h1, ?_, ?_⟩
  · rw [h2]
    decide
  · rw [h3]
    decide

/-- C6, amended: for every `size >= 1` that is a Go `int`, every centre that is a Go
`int` and every grid of dimensions at most 2^62, `placePixels(cx,cy,size,m)`
returns and overwrites with `m` every cell of the grid in columns
`cx-half .. cx+half-1` and rows `cy-half .. cy+half-1`, with `half = size / 2`,
leaving the other cells as they were.  When that square lies entirely inside an
all-Empty grid and `m` is not Empty, exactly `(2*half) * (2*half)` cells hold `m`
afterwards, which is `size * size` when `size` is even, and `(cx,cy)` is one of
them when `size >= 2`. -/
theorem placePixels_square (W H : Nat) (c : Cells) (cx cy size : Int) (m : CellType)
    (hW : W ≤ 4611686018427387904) (hH : H ≤ 4611686018427387904)
    (hcx : isInt64 cx) (hcy : isInt64 cy) (hs1 : 1 ≤ size) (hs : isInt64 size) :
    ∃ c1, placePixels W H c cx cy size m = some c1 ∧
      (∀ tx ty : Int, inBounds W H tx ty = true →
        c1 tx ty = if cx - Int.tdiv size 2 ≤ tx ∧ tx < cx + Int.tdiv size 2 ∧
            cy - Int.tdiv size 2 ≤ ty ∧ ty < cy + Int.tdiv size 2 then m else c tx ty) ∧
      ((∀ a b : Int, inBounds W H a b = true → c a b = CellType.Empty) →
        m ≠ CellType.Empty →
        (0 ≤ cx - Int.tdiv size 2 ∧ cx + Int.tdiv size 2 ≤ (W : Int) ∧
          0 ≤ cy - Int.tdiv size 2 ∧ cy + Int.tdiv size 2 ≤ (H : Int)) →
        ((countNonEmpty W H c1 : Int) = (2 * Int.tdiv size 2) * (2 * Int.tdiv size 2) ∧
          (size % 2 = 0 → (countNonEmpty W H c1 : Int) = size * size) ∧
          (2 ≤ size → c1 cx cy = m))) := by
  obtain ⟨c1, h1, hc1⟩ := placePixels_window W H c cx cy size m hW hH hcx hcy hs1 hs
  refine ⟨c1, h1, hc1, ?_⟩
  intro hempty hm hin
  have hhalf : Int.tdiv size 2 = size / 2 := Int.tdiv_eq_ediv (by omega) (by decide)
  rw [hhalf] at hc1 hin ⊢
  have hh0 : 0 ≤ size / 2 := by omega
  have hcount : countNonEmpty W H c1 =
      (cx + size / 2 - (cx - size / 2)).toNat * (cy + size / 2 - (cy - size / 2)).toNat := by
    refine countNonEmpty_window W H c1 m hm (cx - size / 2) (cx + size / 2) (cy - size / 2)
      (cy + size / 2) ⟨hin.1, by omega, hin.2.1⟩ ⟨hin.2.2.1, by omega, hin.2.2.2⟩ ?_
    intro a b hab
    rw [hc1 a b hab, hempty a b hab]
  have e1 : ((cx + size / 2 - (cx - size / 2)).toNat : Int) = 2 * (size / 2) := by omega
  have e2 : ((cy + size / 2 - (cy - size / 2)).toNat : Int) = 2 * (size / 2) := by omega
  have hcountZ : (countNonEmpty W H c1 : Int) = (2 * (size / 2)) * (2 * (size / 2)) := by
    rw [hcount, Nat.cast_mul, e1, e2]
  refine ⟨hcountZ, ?_, ?_⟩
  · intro heven
    have e3 : 2 * (size / 2) = size := by omega
    rw [hcountZ, e3]
  · intro h2
    have hb : inBounds W H cx cy = true :=
      (inBounds_iff W H cx cy).2 ⟨⟨by omega, by omega⟩, by omega, by omega⟩
    rw [hc1 cx cy hb, if_pos ⟨by omega, by omega, by omega, by omega⟩]

/-- Witness of C6, amended: the brush of size 4 that `Update` passes, at `(5,5)` of
the program's all-Empty grid, writes sixteen cells of Sand, `(5,5)` among them. -/
theorem placePixels_square_witness :
    ∃ c1, placePixels CellsX CellsY emptyCells 5 5 4 Sand = some c1 ∧
      (countNonEmpty CellsX CellsY c1 : Int) = 4 * 4 ∧ c1 5 5 = Sand := by
  obtain ⟨c1, h1, _, h3⟩ := placePixels_square CellsX CellsY emptyCells 5 5 4 Sand
    (by decide) (by decide) ⟨by decide, by decide⟩ ⟨by decide, by decide⟩ (by decide)
    ⟨by decide, by decide⟩
  obtain ⟨_, hcount, hcell⟩ := h3 (fun _ _ _ => rfl) (by decide)
    ⟨by decide, by decide, by decide, by decide⟩
  exact ⟨c1, h1, hcount (by decide), hcell (by decide)⟩

end SandBox
